import Mathlib

/-!
Verification of the parcel-management custody core.

This file gives a shallow embedding of the GRN (goods-received-note) custody
system: the data model of `grn/models.py` and the state-changing operations of
`grn/views.py` (GRN creation and deletion, OTP issuance/redemption/resend, and
the three-stage warehouse pipeline).  Database tables are lists of records; a
`DB` value is the whole persistent state plus the clock and an id source.
Row order inside a table is not observable (Django queries always re-filter
and re-sort), so operations may rebuild tables in any convenient order.
Time is measured in hours, so the 24-hour OTP expiry window is `+ 24`.
Randomness (OTP code generation) and the notification sink (email success or
failure) are threaded in as explicit parameters.
-/

/-- `Location` from models.py: either a plain collection point or a warehouse. -/
structure Location where
  id : Nat
  name : String
  is_warehouse : Bool
  deriving DecidableEq

/-- `CustomUser` from models.py (the fields the custody core reads). -/
structure CustomUser where
  id : Nat
  username : String
  name : String
  location : Option Nat
  is_staff : Bool
  is_superuser : Bool
  deriving DecidableEq

/-- `GRN` header from models.py. -/
structure GRN where
  id : Nat
  receiver : Nat
  delivery_location : Option Nat
  created_by : Option Nat
  place : Option String
  deriving DecidableEq

/-- `GRNLine` from models.py. -/
structure GRNLine where
  id : Nat
  grn : Nat
  sender_name : Option String
  phone : Option Int
  sender_location : Option String
  courier_name : Option String
  courier_id : Option String
  parcel_type : Option String
  remark : Option String
  line_number : Nat
  deriving DecidableEq

/-- `OTP` from models.py; the code is kept as its list of decimal digits. -/
structure OTP where
  id : Nat
  otp : List Nat
  grn : Option Nat
  created_at : Nat
  valid : Bool
  deriving DecidableEq

/-- `DN` (delivery note) from models.py. -/
structure DN where
  id : Nat
  grn_line : Option Nat
  created_at : Nat
  remark : Option String
  from_warehouse_inward : Bool
  deriving DecidableEq

/-- `WarehouseInward` from models.py: one line's three-stage warehouse journey. -/
structure WarehouseInward where
  id : Nat
  grn_line : Option Nat
  inwarded_by : Nat
  inwarded_at : Nat
  inward_remark : Option String
  floor : Option String
  rack : Option String
  assigned_to_floor_by : Option Nat
  assigned_to_floor_at : Option Nat
  floor_remark : Option String
  delivered_to_receiver : Bool
  delivered_by : Option Nat
  delivered_at : Option Nat
  delivery_remark : Option String
  deriving DecidableEq

/-- A notification handed to the email sink; we record the GRN id and the
OTP code embedded in the body. -/
structure EmailRec where
  grn : Nat
  code : List Nat
  deriving DecidableEq

/-- The whole persistent state: one list per table, plus the clock (`now`,
in hours) and a fresh-id source (`nextId`) standing for the autoincrement
primary-key sequences. -/
structure DB where
  locations : List Location
  grns : List GRN
  lines : List GRNLine
  otps : List OTP
  dns : List DN
  inwards : List WarehouseInward
  sentEmails : List EmailRec
  nextId : Nat
  now : Nat
  deriving DecidableEq

/-- Python truthiness of a nullable char field: `None` and the empty string
are falsy. -/
def truthyStr : Option String → Bool
  | none => false
  | some s => !s.isEmpty

/-- Python truthiness of a nullable integer field: `None` and `0` are falsy. -/
def truthyInt : Option Int → Bool
  | none => false
  | some n => n != 0

/-- The lines of one GRN (`grn.lines`). -/
def linesOf (db : DB) (g : Nat) : List GRNLine :=
  db.lines.filter (fun l => l.grn == g)

/-- `hasattr(line, 'dn')`: some DN row points at this line. -/
def hasDN (db : DB) (lid : Nat) : Bool :=
  db.dns.any (fun d => d.grn_line == some lid)

/-- `hasattr(line, 'warehouse_inward')`: some WarehouseInward row points at
this line. -/
def hasInward (db : DB) (lid : Nat) : Bool :=
  db.inwards.any (fun w => w.grn_line == some lid)

/-- `GRN.is_delivered`: `self.lines.filter(dn__isnull=True).count() == 0`. -/
def GRN.is_delivered (db : DB) (g : Nat) : Bool :=
  ((linesOf db g).filter (fun l => !hasDN db l.id)).length == 0

/-- `OTP.generate_otp`: six decimal digits drawn from the randomness source
`r` (the digits of `r`, least significant first). -/
def OTP.generate_otp (r : Nat) : List Nat :=
  [r % 10, r / 10 % 10, r / 100 % 10, r / 1000 % 10, r / 10000 % 10, r / 100000 % 10]

/-- `OTP.is_expired`: `now > created_at + 24 hours`. -/
def OTP.is_expired (o : OTP) (now : Nat) : Bool :=
  now > o.created_at + 24

/-- `WarehouseInward.is_on_floor`: `bool(self.floor)`. -/
def WarehouseInward.is_on_floor (w : WarehouseInward) : Bool :=
  truthyStr w.floor

/-- `WarehouseInward.stage`: derived projection of the three-stage journey. -/
def WarehouseInward.stage (w : WarehouseInward) : String :=
  if w.delivered_to_receiver then "delivered"
  else if truthyStr w.floor then "on_floor"
  else "received"

/-- `has_location_permission` from views.py: admins are checked against the
session's selected location (and pass when none is selected); non-admins are
pinned to their own assigned location. -/
def has_location_permission (db : DB) (u : CustomUser) (loc : Option Nat)
    (sess : Option Nat) : Bool :=
  if u.is_staff || u.is_superuser then
    match sess with
    | some sid =>
      match db.locations.find? (fun l => l.id == sid) with
      | some cur => loc == some cur.id
      | none => false
    | none => true
  else
    match u.location with
    | some ul => loc == some ul
    | none => false

/-- Insert a line into a list sorted by `line_number`, before any line of
equal number (so the sort below is stable, as `order_by` is). -/
def insertByNum (l : GRNLine) : List GRNLine → List GRNLine
  | [] => [l]
  | x :: xs =>
    if Nat.blt x.line_number l.line_number then x :: insertByNum l xs
    else l :: x :: xs

/-- Stable sort by `line_number`, modelling `order_by('line_number')`. -/
def sortByNum : List GRNLine → List GRNLine
  | [] => []
  | x :: xs => insertByNum x (sortByNum xs)

/-- The largest `line_number` in a list, 0 when empty
(`order_by('-line_number').first()`). -/
def maxLineNumber : List GRNLine → Nat
  | [] => 0
  | l :: ls => max l.line_number (maxLineNumber ls)

/-- `GRNLine.save`: a zero line number is auto-assigned as (max existing line
number in the GRN) + 1; an already-set number is kept. -/
def grnline_save_number (db : DB) (gid : Nat) (num : Nat) : Nat :=
  if num == 0 then maxLineNumber (db.lines.filter (fun l => l.grn == gid)) + 1
  else num

/-- One formset row of the GRN-creation form. -/
structure LineInput where
  sender_name : Option String
  phone : Option Int
  sender_location : Option String
  courier_name : Option String
  courier_id : Option String
  parcel_type : Option String
  remark : Option String
  delete : Bool
  deriving DecidableEq

/-- The `any(...)` emptiness filter of `GRNCreateView.form_valid`: a row counts
only if one of sender_name / phone / courier_name / parcel_type is truthy. -/
def lineHasData (li : LineInput) : Bool :=
  truthyStr li.sender_name || truthyInt li.phone ||
    truthyStr li.courier_name || truthyStr li.parcel_type

/-- Build the `GRNLine` rows for GRN creation, assigning ids from `idn` and
line numbers 1.. in input order. -/
def mkLines (gid : Nat) : Nat → Nat → List LineInput → List GRNLine
  | _, _, [] => []
  | idn, num, li :: rest =>
    { id := idn, grn := gid, sender_name := li.sender_name, phone := li.phone,
      sender_location := li.sender_location, courier_name := li.courier_name,
      courier_id := li.courier_id, parcel_type := li.parcel_type,
      remark := li.remark, line_number := num } :: mkLines gid (idn + 1) (num + 1) rest

inductive CreateError
  | noLines
  | notification
  deriving DecidableEq

/-- `GRNCreateView.form_valid`: create the GRN and its non-empty lines inside
one transaction; for a non-warehouse delivery location issue one OTP and send
the notification, rolling the whole creation back if the send fails
(`emailOk = false`); for a warehouse location issue no OTP. -/
def grn_create (db : DB) (u : CustomUser) (receiver : Nat) (loc : Location)
    (place : Option String) (inputs : List LineInput) (emailOk : Bool)
    (rand : Nat) : Except CreateError Nat × DB :=
  let gid := db.nextId
  let valids := (inputs.filter (fun li => !li.delete)).filter lineHasData
  if valids.isEmpty then (.error .noLines, db)
  else
    let newGrn : GRN :=
      { id := gid
        receiver := receiver
        delivery_location := some loc.id
        created_by := some u.id
        place := place }
    let db1 : DB :=
      { db with
        grns := db.grns ++ [newGrn]
        lines := db.lines ++ mkLines gid (db.nextId + 1) 1 valids
        nextId := db.nextId + 1 + valids.length }
    if !loc.is_warehouse then
      let code := OTP.generate_otp rand
      let newOtp : OTP :=
        { id := db1.nextId
          otp := code
          grn := some gid
          created_at := db.now
          valid := true }
      let db2 : DB :=
        { db1 with
          otps := db1.otps ++ [newOtp]
          nextId := db1.nextId + 1 }
      if emailOk then
        (.ok gid, { db2 with sentEmails := db2.sentEmails ++ [ { grn := gid, code := code } ] })
      else (.error .notification, db)
    else (.ok gid, db1)

inductive VerifyError
  | notFound
  | multiple
  | noGrn
  | forbidden
  | expired
  | alreadyDelivered
  deriving DecidableEq

/-- The DN rows created by a successful OTP redemption, one per undelivered
line, with fresh ids from `n`. -/
def mkDNs (u : CustomUser) (now : Nat) : Nat → List GRNLine → List DN
  | _, [] => []
  | n, l :: ls =>
    { id := n, grn_line := some l.id, created_at := now,
      remark := some ("Parcel collected via OTP verification by " ++ u.username),
      from_warehouse_inward := false } :: mkDNs u now (n + 1) ls

/-- `OTPVerificationView.form_valid`: look up the unique OTP row with this
code and `valid=True`; check location permission and expiry; then atomically
stamp a DN on every line of the GRN that lacks one and set `valid=False`. -/
def verify_otp (db : DB) (u : CustomUser) (sess : Option Nat) (code : List Nat) :
    Except VerifyError (List Nat) × DB :=
  match db.otps.filter (fun o => o.otp == code && o.valid) with
  | [] => (.error .notFound, db)
  | [o] =>
    match o.grn with
    | none => (.error .noGrn, db)
    | some gid =>
      match db.grns.find? (fun g => g.id == gid) with
      | none => (.error .noGrn, db)
      | some g =>
        if !has_location_permission db u g.delivery_location sess then
          (.error .forbidden, db)
        else if o.is_expired db.now then (.error .expired, db)
        else
          let undelivered := db.lines.filter (fun l => l.grn == gid && !hasDN db l.id)
          if undelivered.isEmpty then (.error .alreadyDelivered, db)
          else
            (.ok (undelivered.map (fun l => l.id)),
             { db with
               dns := db.dns ++ mkDNs u db.now db.nextId undelivered,
               otps := db.otps.map (fun o2 =>
                 if o2.id == o.id then { o2 with valid := false } else o2),
               nextId := db.nextId + undelivered.length })
  | _ :: _ :: _ => (.error .multiple, db)

inductive ResendError
  | notAdmin
  | notFound
  | forbidden
  | alreadyDelivered
  | multiple
  | email
  deriving DecidableEq

/-- `resend_otp` from views.py: admin-only; get-or-create the GRN's single OTP
row, regenerating code / `created_at` / `valid` in place when it exists; the
email send and the OTP write share one transaction. -/
def resend_otp (db : DB) (u : CustomUser) (sess : Option Nat) (gid : Nat)
    (emailOk : Bool) (rand : Nat) : Except ResendError Unit × DB :=
  if !(u.is_staff || u.is_superuser) then (.error .notAdmin, db)
  else
    match db.grns.find? (fun g => g.id == gid) with
    | none => (.error .notFound, db)
    | some g =>
      if !has_location_permission db u g.delivery_location sess then
        (.error .forbidden, db)
      else if GRN.is_delivered db gid then (.error .alreadyDelivered, db)
      else
        let code := OTP.generate_otp rand
        match db.otps.filter (fun o => o.grn == some gid) with
        | [] =>
          let newOtp : OTP :=
            { id := db.nextId
              otp := code
              grn := some gid
              created_at := db.now
              valid := true }
          let db1 : DB :=
            { db with
              otps := db.otps ++ [newOtp]
              nextId := db.nextId + 1 }
          if emailOk then
            (.ok (), { db1 with sentEmails := db1.sentEmails ++ [ { grn := gid, code := code } ] })
          else (.error .email, db)
        | [o] =>
          let db1 : DB :=
            { db with
              otps := db.otps.map (fun o2 =>
                if o2.id == o.id then
                  { o2 with otp := code, valid := true, created_at := db.now }
                else o2) }
          if emailOk then
            (.ok (), { db1 with sentEmails := db1.sentEmails ++ [ { grn := gid, code := code } ] })
          else (.error .email, db)
        | _ :: _ :: _ => (.error .multiple, db)

inductive DeleteError
  | notAdmin
  | notFound
  | forbidden
  | hasDelivered
  deriving DecidableEq

/-- `GRNDeleteView`: the view carries `AdminRequiredMixin`, so a non-staff,
non-superuser request is refused before `post` runs; then the
location-permission check, refusal when any line already has a DN, otherwise
cascade-delete of the GRN with its lines, OTP, and the lines' DN /
WarehouseInward rows. -/
def grn_delete (db : DB) (u : CustomUser) (sess : Option Nat) (gid : Nat) :
    Except DeleteError Unit × DB :=
  if !(u.is_staff || u.is_superuser) then (.error .notAdmin, db)
  else
  match db.grns.find? (fun g => g.id == gid) with
  | none => (.error .notFound, db)
  | some g =>
    if !has_location_permission db u g.delivery_location sess then
      (.error .forbidden, db)
    else if (linesOf db gid).any (fun l => hasDN db l.id) then
      (.error .hasDelivered, db)
    else
      let delLines := (linesOf db gid).map (fun l => l.id)
      (.ok (),
       { db with
         grns := db.grns.filter (fun g2 => g2.id != gid),
         lines := db.lines.filter (fun l => l.grn != gid),
         otps := db.otps.filter (fun o => o.grn != some gid),
         dns := db.dns.filter (fun d =>
           match d.grn_line with
           | some lid => !delLines.contains lid
           | none => true),
         inwards := db.inwards.filter (fun w =>
           match w.grn_line with
           | some lid => !delLines.contains lid
           | none => true) })

/-- Reassign line numbers 1.. in list order (the body of the renumbering
loops of `warehouse_inward_process`). -/
def assignNums : Nat → List GRNLine → List GRNLine
  | _, [] => []
  | n, l :: ls => { l with line_number := n } :: assignNums (n + 1) ls

/-- Renumber one GRN's lines to a dense 1..N sequence in `line_number` order
(the per-GRN renumbering pass of `warehouse_inward_process`). -/
def renumberGRN (db : DB) (g : Nat) : DB :=
  let sorted := sortByNum (db.lines.filter (fun l => l.grn == g))
  { db with lines := db.lines.filter (fun l => l.grn != g) ++ assignNums 1 sorted }

/-- Stage-1 per-line validation of `warehouse_inward_process`: the line must
exist, its GRN's delivery location must be a warehouse, and it must not
already be inwarded.  Returns the line's (original) GRN id. -/
def validLine (db : DB) (lid : Nat) : Except String Nat :=
  match db.lines.find? (fun l => l.id == lid) with
  | none => .error "Line ID not found"
  | some l =>
    match db.grns.find? (fun g => g.id == l.grn) with
    | none => .error "Error validating line"
    | some g =>
      match g.delivery_location with
      | none => .error "Error validating line"
      | some locId =>
        match db.locations.find? (fun loc => loc.id == locId) with
        | none => .error "Error validating line"
        | some loc =>
          if !loc.is_warehouse then .error "Line is not from a warehouse location"
          else if hasInward db lid then .error "Line is already inwarded"
          else .ok l.grn

/-- Append a line id under its original GRN's key, keeping insertion order of
keys (Python dict semantics of `grns_to_process`). -/
def addToGroup : List (Nat × List Nat) → Nat → Nat → List (Nat × List Nat)
  | [], g, lid => [(g, [lid])]
  | p :: rest, g, lid =>
    if p.1 == g then (p.1, p.2 ++ [lid]) :: rest else p :: addToGroup rest g lid

/-- Phase 1 of `warehouse_inward_process`: validate every selected line and
group the valid ones by their original GRN, collecting per-line errors. -/
def buildGroups (db : DB) : List Nat → List (Nat × List Nat) → List String →
    List (Nat × List Nat) × List String
  | [], groups, errs => (groups, errs)
  | lid :: rest, groups, errs =>
    match validLine db lid with
    | .error e => buildGroups db rest groups (errs ++ [e])
    | .ok g => buildGroups db rest (addToGroup groups g lid) errs

/-- Move the listed lines into the GRN `newGid` (each move goes through
`GRNLine.save`, which keeps a nonzero line number) and create one
WarehouseInward row per moved line. -/
def moveLines (uid : Nat) (rem : String) (origName : String) (newGid : Nat) :
    DB → List Nat → DB
  | d, [] => d
  | d, lid :: rest =>
    let newInward : WarehouseInward :=
      { id := d.nextId
        grn_line := some lid
        inwarded_by := uid
        inwarded_at := d.now
        inward_remark := some (if rem.isEmpty then "Transferred from " ++ origName else rem)
        floor := none
        rack := none
        assigned_to_floor_by := none
        assigned_to_floor_at := none
        floor_remark := none
        delivered_to_receiver := false
        delivered_by := none
        delivered_at := none
        delivery_remark := none }
    let d1 : DB :=
      { d with
        lines := d.lines.map (fun l =>
          if l.id == lid then
            { l with
              grn := newGid
              line_number := grnline_save_number d newGid l.line_number }
          else l)
        inwards := d.inwards ++ [newInward]
        nextId := d.nextId + 1 }
    moveLines uid rem origName newGid d1 rest

/-- Phase 2 of `warehouse_inward_process`, one original GRN's group: create
the new GRN at the acting user's location, move the lines, renumber both
GRNs, issue the new GRN's OTP and send the transfer notification (an email
failure is collected as a warning, after the OTP row was already created). -/
def processGroup (u : CustomUser) (rem : String) (emailOk : Nat → Bool)
    (rand : Nat → Nat) (st : DB × Nat × List String × List Nat)
    (grp : Nat × List Nat) : DB × Nat × List String × List Nat :=
  let db := st.1
  let cnt := st.2.1
  let errs := st.2.2.1
  let created := st.2.2.2
  match db.grns.find? (fun g => g.id == grp.1) with
  | none => (db, cnt, errs ++ ["Error processing GRN"], created)
  | some orig =>
    match orig.delivery_location with
    | none => (db, cnt, errs ++ ["Error processing GRN"], created)
    | some oldLocId =>
      match db.locations.find? (fun loc => loc.id == oldLocId) with
      | none => (db, cnt, errs ++ ["Error processing GRN"], created)
      | some oldLoc =>
        let newGid := db.nextId
        let newGrn : GRN :=
          { id := newGid
            receiver := orig.receiver
            delivery_location := u.location
            created_by := some u.id
            place := some ("Transferred from " ++ oldLoc.name) }
        let db1 : DB :=
          { db with
            grns := db.grns ++ [newGrn]
            nextId := db.nextId + 1 }
        let db2 := moveLines u.id rem oldLoc.name newGid db1 grp.2
        let db3 := renumberGRN db2 grp.1
        let db4 := renumberGRN db3 newGid
        let code := OTP.generate_otp (rand newGid)
        let newOtp : OTP :=
          { id := db4.nextId
            otp := code
            grn := some newGid
            created_at := db4.now
            valid := true }
        let db5 : DB :=
          { db4 with
            otps := db4.otps ++ [newOtp]
            nextId := db4.nextId + 1 }
        if emailOk newGid then
          ({ db5 with sentEmails := db5.sentEmails ++ [ { grn := newGid, code := code } ] },
           cnt + grp.2.length, errs, created ++ [newGid])
        else
          (db5, cnt + grp.2.length, errs ++ ["Error generating OTP for new GRN"], created)

/-- Outcome of a best-effort warehouse batch operation. -/
structure BatchResult where
  success : Bool
  count : Nat
  errors : List String
  newGrns : List Nat
  deriving DecidableEq

/-- `warehouse_inward_process` (stage 1): validate and group the selected
lines by original GRN, then split each group into a brand-new GRN at the
acting user's location; per-line failures are collected without aborting. -/
def warehouse_inward_process (db : DB) (u : CustomUser) (selected : List Nat)
    (rem : String) (emailOk : Nat → Bool) (rand : Nat → Nat) : BatchResult × DB :=
  if selected.isEmpty then
    ({ success := false, count := 0, errors := ["No items selected"], newGrns := [] }, db)
  else
    match u.location with
    | none =>
      ({ success := false, count := 0,
         errors := ["You must have a location assigned to process inward"],
         newGrns := [] }, db)
    | some _ =>
      let gv := buildGroups db selected [] []
      let out := gv.1.foldl (processGroup u rem emailOk rand) (db, 0, gv.2, [])
      if out.2.1 > 0 then
        ({ success := true, count := out.2.1, errors := out.2.2.1,
           newGrns := out.2.2.2 }, out.1)
      else
        ({ success := false, count := 0, errors := out.2.2.1,
           newGrns := out.2.2.2 }, out.1)

/-- The per-item loop of `assign_to_floor` (stage 2): skip items already on a
floor, otherwise stamp floor/rack/assigner/time/remark. -/
def assignFloorLoop (u : CustomUser) (floor rack rem : String) :
    DB → Nat → List String → List Nat → DB × Nat × List String
  | d, c, es, [] => (d, c, es)
  | d, c, es, wid :: rest =>
    match d.inwards.find? (fun w => w.id == wid) with
    | none => assignFloorLoop u floor rack rem d c (es ++ ["Inward ID not found"]) rest
    | some w =>
      if w.is_on_floor then
        assignFloorLoop u floor rack rem d c (es ++ ["Item already assigned to floor"]) rest
      else
        let d1 : DB :=
          { d with
            inwards := d.inwards.map (fun w2 =>
              if w2.id == wid then
                { w2 with
                  floor := some floor
                  rack := some rack
                  assigned_to_floor_by := some u.id
                  assigned_to_floor_at := some d.now
                  floor_remark := some rem }
              else w2) }
        assignFloorLoop u floor rack rem d1 (c + 1) es rest

/-- `assign_to_floor` (stage 2): require a floor, then best-effort process the
selected WarehouseInward rows. -/
def assign_to_floor (db : DB) (u : CustomUser) (selected : List Nat)
    (floor rack rem : String) : BatchResult × DB :=
  if selected.isEmpty then
    ({ success := false, count := 0, errors := ["No items selected"], newGrns := [] }, db)
  else if floor.isEmpty then
    ({ success := false, count := 0, errors := ["Floor is required"], newGrns := [] }, db)
  else
    let out := assignFloorLoop u floor rack rem db 0 [] selected
    if out.2.1 > 0 then
      ({ success := true, count := out.2.1, errors := out.2.2, newGrns := [] }, out.1)
    else
      ({ success := false, count := 0, errors := out.2.2, newGrns := [] }, out.1)

/-- The per-item loop of `warehouse_floor_delivery` (stage 3): skip items
already delivered or whose line already has a DN; otherwise set the delivered
flags and create a DN with `from_warehouse_inward=True`. -/
def floorDeliveryLoop (u : CustomUser) (rem : String) :
    DB → Nat → List String → List Nat → DB × Nat × List String
  | d, c, es, [] => (d, c, es)
  | d, c, es, wid :: rest =>
    match d.inwards.find? (fun w => w.id == wid) with
    | none => floorDeliveryLoop u rem d c (es ++ ["Inward ID not found"]) rest
    | some w =>
      if w.delivered_to_receiver then
        floorDeliveryLoop u rem d c (es ++ ["Item already delivered to receiver"]) rest
      else if (match w.grn_line with | some lid => hasDN d lid | none => false) then
        floorDeliveryLoop u rem d c (es ++ ["DN already exists for this item"]) rest
      else
        let newDn : DN :=
          { id := d.nextId
            grn_line := w.grn_line
            created_at := d.now
            remark := some (if rem.isEmpty then "Parcel collected from warehouse by receiver" else rem)
            from_warehouse_inward := true }
        let d1 : DB :=
          { d with
            inwards := d.inwards.map (fun w2 =>
              if w2.id == wid then
                { w2 with
                  delivered_to_receiver := true
                  delivered_at := some d.now
                  delivered_by := some u.id
                  delivery_remark := some rem }
              else w2)
            dns := d.dns ++ [newDn]
            nextId := d.nextId + 1 }
        floorDeliveryLoop u rem d1 (c + 1) es rest

/-- `warehouse_floor_delivery` (stage 3): best-effort final delivery of the
selected WarehouseInward rows. -/
def warehouse_floor_delivery (db : DB) (u : CustomUser) (selected : List Nat)
    (rem : String) : BatchResult × DB :=
  if selected.isEmpty then
    ({ success := false, count := 0, errors := ["No items selected"], newGrns := [] }, db)
  else
    let out := floorDeliveryLoop u rem db 0 [] selected
    if out.2.1 > 0 then
      ({ success := true, count := out.2.1, errors := out.2.2, newGrns := [] }, out.1)
    else
      ({ success := false, count := 0, errors := out.2.2, newGrns := [] }, out.1)

/-- Well-formedness: every stored id (and id-valued foreign key) is below the
autoincrement source, so `nextId` is genuinely fresh. -/
def wf (db : DB) : Bool :=
  db.grns.all (fun g => g.id < db.nextId) &&
  db.lines.all (fun l => l.id < db.nextId && l.grn < db.nextId) &&
  db.otps.all (fun o => o.id < db.nextId && o.grn.all (fun gid => gid < db.nextId)) &&
  db.dns.all (fun d => d.id < db.nextId) &&
  db.inwards.all (fun w => w.id < db.nextId)

/-- The line-numbering invariant for one GRN: the multiset of its
`line_number`s is exactly 1..N where N is its line count. -/
def dense (db : DB) (g : Nat) : Prop :=
  ((linesOf db g).map (fun l => l.line_number)).Perm
    (List.range' 1 (linesOf db g).length)

deriving instance DecidableEq for Except

instance (db : DB) (g : Nat) : Decidable (dense db g) :=
  inferInstanceAs (Decidable (List.Perm _ _))

/-! ## Generic helper lemmas -/

theorem generate_otp_length (r : Nat) : (OTP.generate_otp r).length = 6 := rfl

theorem generate_otp_digits (r : Nat) : ∀ d ∈ OTP.generate_otp r, d < 10 := by
  intro d hd
  simp only [OTP.generate_otp, List.mem_cons, List.not_mem_nil, or_false] at hd
  rcases hd with h | h | h | h | h | h <;> subst h <;>
    exact Nat.mod_lt _ (by norm_num)

theorem wf_facts (db : DB) (hwf : wf db = true) :
    (∀ g ∈ db.grns, g.id < db.nextId) ∧
    (∀ l ∈ db.lines, l.id < db.nextId ∧ l.grn < db.nextId) ∧
    (∀ o ∈ db.otps, o.id < db.nextId ∧ ∀ gid, o.grn = some gid → gid < db.nextId) ∧
    (∀ d ∈ db.dns, d.id < db.nextId) ∧
    (∀ w ∈ db.inwards, w.id < db.nextId) := by
  simp only [wf, Bool.and_eq_true, List.all_eq_true, decide_eq_true_eq] at hwf
  obtain ⟨⟨⟨⟨h1, h2⟩, h3⟩, h4⟩, h5⟩ := hwf
  refine ⟨h1, h2, ?_, h4, h5⟩
  intro o ho
  obtain ⟨ha, hb⟩ := h3 o ho
  refine ⟨ha, ?_⟩
  intro gid hgid
  rw [hgid] at hb
  simpa [Option.all] using hb

theorem filter_map_comm {α : Type} (l : List α) (p : α → Bool) (f : α → α)
    (h : ∀ x, p (f x) = p x) : (l.map f).filter p = (l.filter p).map f := by
  induction l with
  | nil => rfl
  | cons x xs ih =>
    simp only [List.map_cons, List.filter_cons, h x]
    cases hp : p x <;> simp [ih]

/-! ## Witness fixtures: a small concrete scenario.

`exDb0` is an empty database with one warehouse and one plain location;
`exDbW` is `exDb0` after creating a 2-line GRN (id 100, lines 101/102) at the
warehouse; `exSt1` runs stage-1 inward over both lines (new GRN 103, inwards
104/105, OTP 106); `exDbO` instead creates the GRN at the plain location
(OTP 103 issued at creation). -/

def exWh : Location := ⟨1, "WH", true⟩

def exOff : Location := ⟨2, "Office", false⟩

def exDb0 : DB :=
  { locations := [exWh, exOff], grns := [], lines := [], otps := [], dns := [],
    inwards := [], sentEmails := [], nextId := 100, now := 5 }

def exAdmin : CustomUser :=
  { id := 10, username := "adm", name := "Adm", location := some 2,
    is_staff := true, is_superuser := false }

def exUser : CustomUser :=
  { id := 11, username := "usr", name := "Usr", location := some 2,
    is_staff := false, is_superuser := false }

def exLine1 : LineInput :=
  { sender_name := some "Alice", phone := none, sender_location := none,
    courier_name := some "dtdc", courier_id := none, parcel_type := some "document",
    remark := none, delete := false }

def exLine2 : LineInput :=
  { sender_name := some "Bob", phone := some 99, sender_location := none,
    courier_name := some "post", courier_id := none, parcel_type := some "sample",
    remark := none, delete := false }

def exDbW : DB := (grn_create exDb0 exAdmin 7 exWh none [exLine1, exLine2] true 123456).2

def exSt1 : BatchResult × DB :=
  warehouse_inward_process exDbW exAdmin [101, 102] "" (fun _ => true) (fun _ => 654321)

def exDbO : DB := (grn_create exDb0 exAdmin 7 exOff none [exLine1, exLine2] true 123456).2

/-! ## C9 -/

/-- C9: for a GRN with zero lines, `is_delivered` returns true (no line lacks
a DN, so the zero-lines case is decided as vacuously true). -/
theorem c9_empty_grn_is_delivered (db : DB) (g : Nat) (h : linesOf db g = []) :
    GRN.is_delivered db g = true := by
  simp [GRN.is_delivered, h]

theorem c9_witness :
    GRN.is_delivered
      { locations := [], grns := [⟨1, 2, none, none, none⟩], lines := [], otps := [],
        dns := [], inwards := [], sentEmails := [], nextId := 10, now := 0 } 1 = true :=
  c9_empty_grn_is_delivered _ 1 rfl

/-! ## C10 -/

def exInward104 : WarehouseInward :=
  { id := 104, grn_line := some 101, inwarded_by := 10, inwarded_at := 5,
    inward_remark := some "Transferred from WH", floor := none, rack := none,
    assigned_to_floor_by := none, assigned_to_floor_at := none,
    floor_remark := none, delivered_to_receiver := false, delivered_by := none,
    delivered_at := none, delivery_remark := none }

/-- C10: stage-3 `warehouse_floor_delivery` does not require the item to be on
a floor: for a WarehouseInward with empty floor (stage "received"), not yet
delivered, whose line has no DN, it succeeds, sets `delivered_to_receiver`,
and creates a DN with `from_warehouse_inward=true` while the floor stays
empty — so a line reaches "delivered" without ever passing "on_floor". -/
theorem c10_floor_delivery_skips_floor (db : DB) (u : CustomUser) (rem : String)
    (w : WarehouseInward) (lid : Nat)
    (hfind : db.inwards.find? (fun x => x.id == w.id) = some w)
    (hfloor : truthyStr w.floor = false)
    (hdel : w.delivered_to_receiver = false)
    (hlid : w.grn_line = some lid)
    (hdn : hasDN db lid = false) :
    w.stage = "received" ∧
    (warehouse_floor_delivery db u [w.id] rem).1 =
      { success := true, count := 1, errors := [], newGrns := [] } ∧
    (∃ w2 ∈ (warehouse_floor_delivery db u [w.id] rem).2.inwards,
      w2.id = w.id ∧ w2.delivered_to_receiver = true ∧
      w2.floor = w.floor ∧ w2.stage = "delivered") ∧
    (∃ d ∈ (warehouse_floor_delivery db u [w.id] rem).2.dns,
      d.grn_line = some lid ∧ d.from_warehouse_inward = true) := by
  have hmem : w ∈ db.inwards := List.mem_of_find?_eq_some hfind
  refine ⟨by simp [WarehouseInward.stage, hdel, hfloor], ?_, ?_, ?_⟩ <;>
    simp only [warehouse_floor_delivery, floorDeliveryLoop, hfind, hdel, hlid, hdn] <;>
    simp only [List.isEmpty_cons, Bool.false_eq_true, if_false, ite_false]
  · simp
  · refine ⟨_, List.mem_map_of_mem _ hmem, ?_⟩
    simp [hdel, hfloor, WarehouseInward.stage]
  · refine ⟨_, List.mem_append.mpr (Or.inr (List.mem_singleton.mpr rfl)), ?_⟩
    simp [hlid]

theorem c10_witness :
    exInward104.stage = "received" ∧
    (warehouse_floor_delivery exSt1.2 exAdmin [104] "").1 =
      { success := true, count := 1, errors := [], newGrns := [] } := by
  have h := c10_floor_delivery_skips_floor exSt1.2 exAdmin "" exInward104 101
    (by decide) (by decide) (by decide) (by decide) (by decide)
  exact ⟨h.1, h.2.1⟩

/-! ## C5 -/

/-- C5: GRN creation is one atomic unit: when the notification send fails
during creation at a non-warehouse location, the whole operation is rolled
back — the returned state is exactly the input state (no GRN, lines, or OTP
from the attempt). -/
theorem c5_create_rolls_back_on_notification_failure
    (db : DB) (u : CustomUser) (receiver : Nat) (loc : Location) (place : Option String)
    (inputs : List LineInput) (rand : Nat)
    (hwh : loc.is_warehouse = false)
    (hval : ((inputs.filter (fun li => !li.delete)).filter lineHasData).isEmpty = false) :
    grn_create db u receiver loc place inputs false rand = (.error .notification, db) := by
  simp only [grn_create]
  rw [hval, hwh]
  simp

theorem c5_witness :
    grn_create exDb0 exAdmin 7 exOff none [exLine1, exLine2] false 123456 =
      (.error .notification, exDb0) :=
  c5_create_rolls_back_on_notification_failure exDb0 exAdmin 7 exOff none
    [exLine1, exLine2] 123456 rfl (by decide)

/-! ## C6 -/

/-- C6: for every successfully created GRN, a non-warehouse delivery location
gets exactly one OTP (a 6-digit numeric code) issued at creation, and the
notification sent embeds that code; a warehouse delivery location gets zero
OTPs at creation. -/
theorem c6_otp_issuance_at_creation
    (db : DB) (u : CustomUser) (receiver : Nat) (loc : Location) (place : Option String)
    (inputs : List LineInput) (rand : Nat)
    (hwf : wf db = true)
    (hval : ((inputs.filter (fun li => !li.delete)).filter lineHasData).isEmpty = false) :
    (loc.is_warehouse = false →
      (grn_create db u receiver loc place inputs true rand).1 = .ok db.nextId ∧
      (grn_create db u receiver loc place inputs true rand).2.otps =
        db.otps ++
          [⟨db.nextId + 1 + ((inputs.filter (fun li => !li.delete)).filter lineHasData).length,
            OTP.generate_otp rand, some db.nextId, db.now, true⟩] ∧
      ((grn_create db u receiver loc place inputs true rand).2.otps.filter
        (fun o => o.grn == some db.nextId)).length = 1 ∧
      (OTP.generate_otp rand).length = 6 ∧
      (∀ d ∈ OTP.generate_otp rand, d < 10) ∧
      (grn_create db u receiver loc place inputs true rand).2.sentEmails =
        db.sentEmails ++ [⟨db.nextId, OTP.generate_otp rand⟩]) ∧
    (loc.is_warehouse = true →
      (grn_create db u receiver loc place inputs true rand).1 = .ok db.nextId ∧
      (grn_create db u receiver loc place inputs true rand).2.otps = db.otps) := by
  have hpre : db.otps.filter (fun o => o.grn == some db.nextId) = [] := by
    rw [List.filter_eq_nil_iff]
    intro o ho hbeq
    have := ((wf_facts db hwf).2.2.1 o ho).2 db.nextId (by simpa using hbeq)
    omega
  constructor
  · intro hwh
    have hotps : (grn_create db u receiver loc place inputs true rand).2.otps =
        db.otps ++
          [⟨db.nextId + 1 + ((inputs.filter (fun li => !li.delete)).filter lineHasData).length,
            OTP.generate_otp rand, some db.nextId, db.now, true⟩] := by
      simp only [grn_create]
      rw [hval, hwh]
      simp
    refine ⟨?_, hotps, ?_, generate_otp_length rand, generate_otp_digits rand, ?_⟩
    · simp only [grn_create]
      rw [hval, hwh]
      simp
    · rw [hotps, List.filter_append, hpre]
      simp
    · simp only [grn_create]
      rw [hval, hwh]
      simp
  · intro hwh
    constructor
    · simp only [grn_create]
      rw [hval, hwh]
      simp
    · simp only [grn_create]
      rw [hval, hwh]
      simp

theorem c6_witness :
    ((grn_create exDb0 exAdmin 7 exOff none [exLine1, exLine2] true 123456).2.otps.filter
      (fun o => o.grn == some (100 : Nat))).length = 1 ∧
    (grn_create exDb0 exAdmin 7 exWh none [exLine1, exLine2] true 123456).2.otps =
      exDb0.otps := by
  constructor
  · exact ((c6_otp_issuance_at_creation exDb0 exAdmin 7 exOff none [exLine1, exLine2] 123456
      (by decide) (by decide)).1 rfl).2.2.1
  · exact ((c6_otp_issuance_at_creation exDb0 exAdmin 7 exWh none [exLine1, exLine2] 123456
      (by decide) (by decide)).2 rfl).2

/-! ## C1 -/

theorem mkDNs_mem (u : CustomUser) (now : Nat) :
    ∀ (n : Nat) (ls : List GRNLine), ∀ l ∈ ls,
      ∃ d ∈ mkDNs u now n ls, d.grn_line = some l.id ∧ d.from_warehouse_inward = false := by
  intro n ls
  induction ls generalizing n with
  | nil => intro l hl; cases hl
  | cons x xs ih =>
    intro l hl
    cases hl with
    | head => exact ⟨_, List.mem_cons_self _ _, rfl, rfl⟩
    | tail _ h =>
      obtain ⟨d, hd, h1, h2⟩ := ih (n + 1) l h
      exact ⟨d, List.mem_cons_of_mem _ hd, h1, h2⟩

theorem filter_after_invalidate (otps : List OTP) (code : List Nat) (o : OTP)
    (h : otps.filter (fun o2 => o2.otp == code && o2.valid) = [o]) :
    (otps.map (fun o2 => if o2.id == o.id then { o2 with valid := false } else o2)).filter
      (fun o2 => o2.otp == code && o2.valid) = [] := by
  rw [List.filter_eq_nil_iff]
  intro x hx
  rw [List.mem_map] at hx
  obtain ⟨y, hy, rfl⟩ := hx
  cases hyid : (y.id == o.id) with
  | true => simp [hyid]
  | false =>
    simp only [hyid, Bool.false_eq_true, if_false, ite_false]
    intro hp
    have hmem : y ∈ otps.filter (fun o2 => o2.otp == code && o2.valid) :=
      List.mem_filter.mpr ⟨hy, hp⟩
    rw [h, List.mem_singleton] at hmem
    subst hmem
    simp at hyid

/-- C1: redeeming a valid, unexpired OTP (with location permission, at a GRN
with at least one line lacking a DN) atomically creates a DN with
`from_warehouse_inward=false` for every line that lacked one, leaves lines
and pre-existing DNs untouched, flips the OTP's `valid` to false, and a
second redemption of the same code fails as `NotFound` (no valid row left). -/
theorem c1_redeem_valid_otp
    (db : DB) (u : CustomUser) (sess : Option Nat) (code : List Nat)
    (o : OTP) (gid : Nat) (g : GRN)
    (hfilter : db.otps.filter (fun o2 => o2.otp == code && o2.valid) = [o])
    (hgrn : o.grn = some gid)
    (hfind : db.grns.find? (fun g2 => g2.id == gid) = some g)
    (hperm : has_location_permission db u g.delivery_location sess = true)
    (hexp : o.is_expired db.now = false)
    (hund : (db.lines.filter (fun l => l.grn == gid && !hasDN db l.id)).isEmpty = false) :
    (verify_otp db u sess code).1 =
      .ok ((db.lines.filter (fun l => l.grn == gid && !hasDN db l.id)).map (fun l => l.id)) ∧
    (verify_otp db u sess code).2.lines = db.lines ∧
    (verify_otp db u sess code).2.dns =
      db.dns ++ mkDNs u db.now db.nextId
        (db.lines.filter (fun l => l.grn == gid && !hasDN db l.id)) ∧
    (∀ l ∈ db.lines.filter (fun l => l.grn == gid && !hasDN db l.id),
      ∃ d ∈ (verify_otp db u sess code).2.dns,
        d.grn_line = some l.id ∧ d.from_warehouse_inward = false) ∧
    (∃ o2 ∈ (verify_otp db u sess code).2.otps, o2.id = o.id ∧ o2.valid = false) ∧
    (∀ u2 sess2, verify_otp (verify_otp db u sess code).2 u2 sess2 code =
      (.error .notFound, (verify_otp db u sess code).2)) := by
  have hred : verify_otp db u sess code =
      (.ok ((db.lines.filter (fun l => l.grn == gid && !hasDN db l.id)).map (fun l => l.id)),
       { db with
         dns := db.dns ++ mkDNs u db.now db.nextId
           (db.lines.filter (fun l => l.grn == gid && !hasDN db l.id)),
         otps := db.otps.map (fun o2 =>
           if o2.id == o.id then { o2 with valid := false } else o2),
         nextId := db.nextId +
           (db.lines.filter (fun l => l.grn == gid && !hasDN db l.id)).length }) := by
    simp only [verify_otp]
    rw [hfilter]
    simp [hgrn, hfind, hperm, hexp, hund]
  have hoMem : o ∈ db.otps :=
    (List.mem_filter.mp (hfilter.symm ▸ List.mem_singleton_self o)).1
  refine ⟨by rw [hred], by rw [hred], by rw [hred], ?_, ?_, ?_⟩
  · intro l hl
    obtain ⟨d, hd, h1, h2⟩ := mkDNs_mem u db.now db.nextId _ l hl
    refine ⟨d, ?_, h1, h2⟩
    rw [hred]
    exact List.mem_append.mpr (Or.inr hd)
  · refine ⟨⟨o.id, o.otp, o.grn, o.created_at, false⟩, ?_, rfl, rfl⟩
    rw [hred]
    have hmm := List.mem_map_of_mem
      (fun o2 => if (o2.id == o.id) = true then { o2 with valid := false } else o2) hoMem
    simpa using hmm
  · intro u2 sess2
    rw [hred]
    simp only [verify_otp]
    rw [filter_after_invalidate db.otps code o hfilter]

theorem c1_witness :
    (verify_otp exDbO exAdmin none (OTP.generate_otp 123456)).1 = .ok [101, 102] ∧
    (verify_otp (verify_otp exDbO exAdmin none (OTP.generate_otp 123456)).2 exAdmin none
      (OTP.generate_otp 123456)).1 = .error .notFound := by
  have h := c1_redeem_valid_otp exDbO exAdmin none (OTP.generate_otp 123456)
    ⟨103, OTP.generate_otp 123456, some 100, 5, true⟩ 100 ⟨100, 7, some 2, some 10, none⟩
    (by decide) rfl (by decide) (by decide) (by decide) (by decide)
  constructor
  · rw [h.1]
    decide
  · rw [h.2.2.2.2.2 exAdmin none]

/-! ## C8 -/

/-- C8: OTP resend for a not-fully-delivered GRN has get-or-regenerate
semantics on the GRN's single OTP entity: with no existing row one is
created; with an existing row its code is replaced by a fresh 6-digit code,
`created_at` is reset to now, and `valid` is forced back to true, in place —
in both cases exactly one OTP row for the GRN exists afterwards. -/
theorem c8_resend_get_or_regenerate
    (db : DB) (u : CustomUser) (sess : Option Nat) (gid : Nat) (g : GRN) (rand : Nat)
    (hadmin : (u.is_staff || u.is_superuser) = true)
    (hg : db.grns.find? (fun x => x.id == gid) = some g)
    (hperm : has_location_permission db u g.delivery_location sess = true)
    (hnotdel : GRN.is_delivered db gid = false) :
    (db.otps.filter (fun o => o.grn == some gid) = [] →
      resend_otp db u sess gid true rand =
        (.ok (), { db with
                   otps := db.otps ++ [⟨db.nextId, OTP.generate_otp rand, some gid, db.now, true⟩],
                   sentEmails := db.sentEmails ++ [⟨gid, OTP.generate_otp rand⟩],
                   nextId := db.nextId + 1 }) ∧
      ((db.otps ++ [(⟨db.nextId, OTP.generate_otp rand, some gid, db.now, true⟩ : OTP)]).filter
        (fun o => o.grn == some gid)).length = 1) ∧
    (∀ o, db.otps.filter (fun o2 => o2.grn == some gid) = [o] →
      resend_otp db u sess gid true rand =
        (.ok (), { db with
                   otps := db.otps.map (fun o2 =>
                     if o2.id == o.id then
                       { o2 with otp := OTP.generate_otp rand, valid := true, created_at := db.now }
                     else o2),
                   sentEmails := db.sentEmails ++ [⟨gid, OTP.generate_otp rand⟩] }) ∧
      ((db.otps.map (fun o2 =>
          if o2.id == o.id then
            { o2 with otp := OTP.generate_otp rand, valid := true, created_at := db.now }
          else o2)).filter (fun o2 => o2.grn == some gid)).length = 1) ∧
    (OTP.generate_otp rand).length = 6 ∧ (∀ d ∈ OTP.generate_otp rand, d < 10) := by
  refine ⟨?_, ?_, generate_otp_length rand, generate_otp_digits rand⟩
  · intro hfil
    constructor
    · simp only [resend_otp]
      rw [hadmin, hg, hfil]
      simp [hperm, hnotdel]
    · rw [List.filter_append, hfil]
      simp
  · intro o hfil
    constructor
    · simp only [resend_otp]
      rw [hadmin, hg, hfil]
      simp [hperm, hnotdel]
    · have hcomm := filter_map_comm db.otps (fun o2 => o2.grn == some gid)
        (fun o2 => if o2.id == o.id then
          { o2 with otp := OTP.generate_otp rand, valid := true, created_at := db.now }
        else o2)
        (by intro x; cases hx : (x.id == o.id) <;> simp [hx])
      rw [hcomm, hfil]
      simp

theorem c8_witness :
    (resend_otp exDbO exAdmin none 100 true 777).1 = .ok () ∧
    ((resend_otp exDbO exAdmin none 100 true 777).2.otps.filter
      (fun o => o.grn == some (100 : Nat))).length = 1 := by
  have h := c8_resend_get_or_regenerate exDbO exAdmin none 100 ⟨100, 7, some 2, some 10, none⟩ 777
    rfl (by decide) (by decide) (by decide)
  obtain ⟨heq, hlen⟩ := h.2.1 ⟨103, OTP.generate_otp 123456, some 100, 5, true⟩ (by decide)
  rw [heq]
  exact ⟨rfl, hlen⟩

/-! ## C7 -/

/-- The location-match condition exactly as claim C7 words it: non-admins
match via their own assigned location; admins match via their selected active
location context (so an admin with no selected context matches nothing). -/
def c7_claim_match (db : DB) (u : CustomUser) (sess : Option Nat)
    (dl : Option Nat) : Bool :=
  if u.is_staff || u.is_superuser then
    match sess with
    | some sid =>
      match db.locations.find? (fun l => l.id == sid) with
      | some cur => dl == some cur.id
      | none => false
    | none => false
  else
    match u.location with
    | some ul => dl == some ul
    | none => false

def c7db : DB :=
  { locations := [exOff], grns := [⟨1, 7, some 2, none, none⟩], lines := [], otps := [],
    dns := [], inwards := [], sentEmails := [], nextId := 50, now := 0 }

/-- C7 (counterexample): the claim "GRN deletion fails with a permission
error unless the acting user's location matches the GRN's delivery location
(admins via their selected active location context)" is false: an admin with
no selected location context deletes a GRN at any location. -/
theorem c7_counterexample :
    ¬ (∀ (db : DB) (u : CustomUser) (sess : Option Nat) (gid : Nat) (g : GRN),
        db.grns.find? (fun x => x.id == gid) = some g →
        c7_claim_match db u sess g.delivery_location = false →
        grn_delete db u sess gid = (.error .forbidden, db)) := by
  intro h
  have hc := h c7db exAdmin none 1 ⟨1, 7, some 2, none, none⟩ (by decide) (by decide)
  exact absurd hc (by decide)

/-- C7 (amended): GRN deletion is admin-gated — a request by a non-staff,
non-superuser user fails and changes nothing regardless of any location
match; for an admin it fails with a permission error and changes nothing
unless the location check passes — via the selected active location context
when one is selected, while an admin with no selected location context
passes for every GRN; it fails and changes nothing when any line already
has a DN; otherwise it deletes the GRN together with its lines and OTP. -/
theorem c7_delete_permissions_amended
    (db : DB) (u : CustomUser) (sess : Option Nat) (gid : Nat) (g : GRN)
    (hg : db.grns.find? (fun x => x.id == gid) = some g) :
    ((u.is_staff || u.is_superuser) = false →
      grn_delete db u sess gid = (.error .notAdmin, db)) ∧
    ((u.is_staff || u.is_superuser) = true →
      has_location_permission db u g.delivery_location sess = false →
      grn_delete db u sess gid = (.error .forbidden, db)) ∧
    ((u.is_staff || u.is_superuser) = true →
      has_location_permission db u g.delivery_location sess = true →
      (linesOf db gid).any (fun l => hasDN db l.id) = true →
      grn_delete db u sess gid = (.error .hasDelivered, db)) ∧
    ((u.is_staff || u.is_superuser) = true →
      has_location_permission db u g.delivery_location sess = true →
      (linesOf db gid).any (fun l => hasDN db l.id) = false →
      (grn_delete db u sess gid).1 = .ok () ∧
      (∀ g2 ∈ (grn_delete db u sess gid).2.grns, g2.id ≠ gid) ∧
      linesOf (grn_delete db u sess gid).2 gid = [] ∧
      (∀ o ∈ (grn_delete db u sess gid).2.otps, o.grn ≠ some gid) ∧
      (∀ g2, g2 ≠ gid → linesOf (grn_delete db u sess gid).2 g2 = linesOf db g2)) ∧
    ((u.is_staff || u.is_superuser) = true → sess = none →
      has_location_permission db u g.delivery_location sess = true) := by
  refine ⟨?_, ?_, ?_, ?_, ?_⟩
  · intro ha
    simp only [grn_delete]
    simp [ha]
  · intro ha hp
    simp only [grn_delete, ha, Bool.not_true, Bool.false_eq_true, if_false]
    rw [hg]
    simp [hp]
  · intro ha hp hany
    simp only [grn_delete, ha, Bool.not_true, Bool.false_eq_true, if_false]
    rw [hg]
    simp [hp, hany]
  · intro ha hp hany
    have hred : grn_delete db u sess gid =
        (.ok (), { db with
                   grns := db.grns.filter (fun g2 => g2.id != gid),
                   lines := db.lines.filter (fun l => l.grn != gid),
                   otps := db.otps.filter (fun o => o.grn != some gid),
                   dns := db.dns.filter (fun d =>
                     match d.grn_line with
                     | some lid =>
                       !((linesOf db gid).map (fun l => l.id)).contains lid
                     | none => true),
                   inwards := db.inwards.filter (fun w =>
                     match w.grn_line with
                     | some lid =>
                       !((linesOf db gid).map (fun l => l.id)).contains lid
                     | none => true) }) := by
      simp only [grn_delete, ha, Bool.not_true, Bool.false_eq_true, if_false]
      rw [hg]
      simp [hp, hany]
    refine ⟨by rw [hred], ?_, ?_, ?_, ?_⟩
    · intro g2 hg2
      rw [hred] at hg2
      have := (List.mem_filter.mp hg2).2
      simpa using this
    · rw [hred]
      simp only [linesOf, List.filter_filter]
      rw [List.filter_eq_nil_iff]
      intro l _
      cases hl : (l.grn == gid) with
      | false => simp [hl]
      | true =>
        have hlg : l.grn = gid := by simpa using hl
        simp [hlg]
    · intro o ho
      rw [hred] at ho
      have := (List.mem_filter.mp ho).2
      simpa using this
    · intro g2 hne
      rw [hred]
      simp only [linesOf, List.filter_filter]
      apply List.filter_congr
      intro l _
      cases hl : (l.grn == g2) with
      | false => simp [hl]
      | true =>
        have : l.grn = g2 := by simpa using hl
        simp [hl, this, hne]
  · intro ha hs
    subst hs
    simp [has_location_permission, ha]

theorem c7_witness :
    grn_delete exDbO exUser none 100 = (.error .notAdmin, exDbO) ∧
    (grn_delete exDbO exAdmin none 100).1 = .ok () ∧
    linesOf (grn_delete exDbO exAdmin none 100).2 100 = [] := by
  have h1 := (c7_delete_permissions_amended exDbO exUser none 100
    ⟨100, 7, some 2, some 10, none⟩ (by decide)).1 (by decide)
  have h2 := (c7_delete_permissions_amended exDbO exAdmin none 100
    ⟨100, 7, some 2, some 10, none⟩ (by decide)).2.2.2.1 (by decide) (by decide)
    (by decide)
  exact ⟨h1, h2.1, h2.2.2.1⟩

/-! ## C4 -/

theorem filter_map_fix {α : Type} (l : List α) (p : α → Bool) (f : α → α)
    (h1 : ∀ x ∈ l, p (f x) = p x) (h2 : ∀ x ∈ l, p x = true → f x = x) :
    (l.map f).filter p = l.filter p := by
  induction l with
  | nil => rfl
  | cons x xs ih =>
    have ih2 := ih (fun y hy => h1 y (List.mem_cons_of_mem x hy))
      (fun y hy => h2 y (List.mem_cons_of_mem x hy))
    simp only [List.map_cons, List.filter_cons, h1 x (List.mem_cons_self x xs)]
    cases hp : p x with
    | false => simp [hp, ih2]
    | true => simp [hp, ih2, h2 x (List.mem_cons_self x xs) hp]

theorem find?_eq_of_mem_nodup {α : Type} (idf : α → Nat) :
    ∀ (l : List α), (l.map idf).Nodup → ∀ w ∈ l,
      l.find? (fun x => idf x == idf w) = some w := by
  intro l
  induction l with
  | nil => intro _ w hw; cases hw
  | cons x xs ih =>
    intro hnd w hw
    have hnd' : (xs.map idf).Nodup := by
      rw [List.map_cons, List.nodup_cons] at hnd
      exact hnd.2
    cases hx : (idf x == idf w) with
    | true =>
      have hxw : idf x = idf w := by simpa using hx
      have hx2 : x = w :=
        List.inj_on_of_nodup_map hnd (List.mem_cons_self x xs) hw hxw
      have hpos := @List.find?_cons_of_pos _ (fun y => idf y == idf w) x xs hx
      rw [hpos, hx2]
    | false =>
      have hw' : w ∈ xs := by
        cases hw with
        | head => simp at hx
        | tail _ h => exact h
      have hneg := @List.find?_cons_of_neg _ (fun y => idf y == idf w) x xs (by simp [hx])
      rw [hneg]
      exact ih hnd' w hw'

theorem floorDeliveryLoop_preserves_dn_line
    (u : CustomUser) (rem : String) (lid : Nat) :
    ∀ (sel : List Nat) (d : DB) (c : Nat) (es : List String),
      (d.inwards.map (fun w => w.id)).Nodup →
      hasDN d lid = true →
      ((floorDeliveryLoop u rem d c es sel).1.inwards.filter
          (fun w => w.grn_line == some lid) =
        d.inwards.filter (fun w => w.grn_line == some lid)) ∧
      ((floorDeliveryLoop u rem d c es sel).1.dns.filter
          (fun x => x.grn_line == some lid) =
        d.dns.filter (fun x => x.grn_line == some lid)) := by
  intro sel
  induction sel with
  | nil => intro d c es _ _; exact ⟨rfl, rfl⟩
  | cons wid rest ih =>
    intro d c es hnd hdn
    simp only [floorDeliveryLoop]
    cases hfind : d.inwards.find? (fun w => w.id == wid) with
    | none => exact ih d c _ hnd hdn
    | some w =>
      cases hdel : w.delivered_to_receiver with
      | true => simpa [hdel] using ih d c _ hnd hdn
      | false =>
        cases hchk : (match w.grn_line with | some l => hasDN d l | none => false) with
        | true => simpa [hdel, hchk] using ih d c _ hnd hdn
        | false =>
          have hwmem : w ∈ d.inwards := List.mem_of_find?_eq_some hfind
          have hwid' := List.find?_some hfind
          have hwid : (w.id == wid) = true := hwid'
          have hwlid : (w.grn_line == some lid) = false := by
            cases hgl : w.grn_line with
            | none => rfl
            | some l2 =>
              rw [hgl] at hchk
              have hchk2 : hasDN d l2 = false := hchk
              cases hb : ((some l2 : Option Nat) == some lid) with
              | false => rfl
              | true =>
                have hl2 : l2 = lid := by simpa using hb
                rw [hl2] at hchk2
                rw [hdn] at hchk2
                cases hchk2
          simp only [hdel, hchk, Bool.false_eq_true, if_false, ite_false]
          set f : WarehouseInward → WarehouseInward := fun w2 =>
            if w2.id == wid then
              { w2 with
                delivered_to_receiver := true
                delivered_at := some d.now
                delivered_by := some u.id
                delivery_remark := some rem }
            else w2 with hf
          have hidpres : ∀ x, (f x).id = x.id := by
            intro x
            rw [hf]
            cases hx : (x.id == wid) <;> simp [hx]
          have hglpres : ∀ x, (f x).grn_line = x.grn_line := by
            intro x
            rw [hf]
            cases hx : (x.id == wid) <;> simp [hx]
          have hnd1 : ((d.inwards.map f).map (fun w2 => w2.id)).Nodup := by
            rw [List.map_map]
            have : ((fun w2 => w2.id) ∘ f) = (fun w2 => w2.id) := by
              funext x
              exact hidpres x
            rw [this]
            exact hnd
          have happ1 := ih
            { d with
              inwards := d.inwards.map f,
              dns := d.dns ++ [⟨d.nextId, w.grn_line, d.now,
                some (if rem.isEmpty then "Parcel collected from warehouse by receiver" else rem),
                true⟩],
              nextId := d.nextId + 1 }
            (c + 1) es hnd1
            (by
              show ((d.dns ++ [(⟨d.nextId, w.grn_line, d.now,
                some (if rem.isEmpty then "Parcel collected from warehouse by receiver" else rem),
                true⟩ : DN)]).any (fun x => x.grn_line == some lid)) = true
              simp only [List.any_append]
              rw [show d.dns.any (fun x => x.grn_line == some lid) = true from hdn]
              simp)
          refine ⟨?_, ?_⟩
          · rw [happ1.1]
            show (d.inwards.map f).filter (fun w2 => w2.grn_line == some lid) = _
            apply filter_map_fix
            · intro x _
              rw [hglpres x]
            · intro x hx hpx
              rw [hf]
              cases hxw : (x.id == wid) with
              | false => simp [hxw]
              | true =>
                have hxid : x.id = wid := by simpa using hxw
                have hwid2 : w.id = wid := by simpa using hwid
                have : x = w :=
                  List.inj_on_of_nodup_map hnd hx hwmem (by rw [hxid, hwid2])
                rw [this] at hpx
                rw [hwlid] at hpx
                cases hpx
          · rw [happ1.2]
            show (d.dns ++ [(⟨d.nextId, w.grn_line, d.now,
                some (if rem.isEmpty then "Parcel collected from warehouse by receiver" else rem),
                true⟩ : DN)]).filter (fun x => x.grn_line == some lid) = _
            rw [List.filter_append]
            have hnil : ([(⟨d.nextId, w.grn_line, d.now,
                some (if rem.isEmpty then "Parcel collected from warehouse by receiver" else rem),
                true⟩ : DN)].filter (fun x => x.grn_line == some lid)) = [] := by
              simp [List.filter_cons, hwlid]
            rw [hnil]
            simp

def c4line : GRNLine :=
  { id := 1, grn := 1, sender_name := some "A", phone := none, sender_location := none,
    courier_name := some "dtdc", courier_id := none, parcel_type := some "document",
    remark := none, line_number := 1 }

def c4inward : WarehouseInward :=
  { id := 40, grn_line := some 1, inwarded_by := 10, inwarded_at := 0,
    inward_remark := none, floor := none, rack := none, assigned_to_floor_by := none,
    assigned_to_floor_at := none, floor_remark := none, delivered_to_receiver := true,
    delivered_by := some 10, delivered_at := some 0, delivery_remark := none }

/-- A state the pipeline itself produces (stage 1 then direct stage 3): line 1
has a DN while its inward record has no floor. -/
def c4db : DB :=
  { locations := [exWh], grns := [⟨1, 7, some 1, none, none⟩], lines := [c4line],
    otps := [], dns := [⟨2, some 1, 0, none, true⟩], inwards := [c4inward],
    sentEmails := [], nextId := 50, now := 9 }

/-- C4 (counterexample): the claim that no warehouse stage-1/2/3 operation
ever successfully processes a line that already has a DN is false: stage 2
(`assign_to_floor`) checks only `is_on_floor`, so it processes a DN-bearing
line whose inward record has no floor yet, mutating its custody record. -/
theorem c4_counterexample :
    ¬ (∀ (db : DB) (u : CustomUser) (lid : Nat), hasDN db lid = true →
        (∀ selected rem emailOk rand,
          ((warehouse_inward_process db u selected rem emailOk rand).2.inwards.filter
              (fun w => w.grn_line == some lid) =
            db.inwards.filter (fun w => w.grn_line == some lid)) ∧
          ((warehouse_inward_process db u selected rem emailOk rand).2.dns.filter
              (fun x => x.grn_line == some lid) =
            db.dns.filter (fun x => x.grn_line == some lid))) ∧
        (∀ selected floor rack rem,
          ((assign_to_floor db u selected floor rack rem).2.inwards.filter
              (fun w => w.grn_line == some lid) =
            db.inwards.filter (fun w => w.grn_line == some lid)) ∧
          ((assign_to_floor db u selected floor rack rem).2.dns.filter
              (fun x => x.grn_line == some lid) =
            db.dns.filter (fun x => x.grn_line == some lid))) ∧
        (∀ selected rem,
          ((warehouse_floor_delivery db u selected rem).2.inwards.filter
              (fun w => w.grn_line == some lid) =
            db.inwards.filter (fun w => w.grn_line == some lid)) ∧
          ((warehouse_floor_delivery db u selected rem).2.dns.filter
              (fun x => x.grn_line == some lid) =
            db.dns.filter (fun x => x.grn_line == some lid)))) := by
  intro h
  have hc := ((h c4db exAdmin 1 (by decide)).2.1) [40] "3" "" ""
  exact absurd hc (by decide)

/-- C4 (amended): only stage 3 (`warehouse_floor_delivery`) refuses lines
that already have a DN: for every such line it leaves the line's
WarehouseInward rows and DN rows unchanged, and selecting exactly that item
yields a failed batch with a per-item error.  (Stages 1 and 2 do not check
for a DN: stage 1 processes a DN-bearing line in a warehouse GRN that is not
yet inwarded, and stage 2 processes a DN-bearing line whose inward is not yet
on a floor — see the counterexample.) -/
theorem c4_stage3_never_processes_dn_line
    (db : DB) (u : CustomUser) (selected : List Nat) (rem : String) (lid : Nat)
    (hnd : (db.inwards.map (fun w => w.id)).Nodup)
    (hdn : hasDN db lid = true) :
    ((warehouse_floor_delivery db u selected rem).2.inwards.filter
        (fun w => w.grn_line == some lid) =
      db.inwards.filter (fun w => w.grn_line == some lid)) ∧
    ((warehouse_floor_delivery db u selected rem).2.dns.filter
        (fun x => x.grn_line == some lid) =
      db.dns.filter (fun x => x.grn_line == some lid)) ∧
    (∀ w ∈ db.inwards, w.grn_line = some lid → selected = [w.id] →
      (warehouse_floor_delivery db u selected rem).1.success = false ∧
      (warehouse_floor_delivery db u selected rem).1.errors ≠ []) := by
  have hmain := floorDeliveryLoop_preserves_dn_line u rem lid selected db 0 [] hnd hdn
  have hsnd : (warehouse_floor_delivery db u selected rem).2 =
      (floorDeliveryLoop u rem db 0 [] selected).1 ∨
      (warehouse_floor_delivery db u selected rem).2 = db := by
    simp only [warehouse_floor_delivery]
    cases hsel : selected.isEmpty with
    | true =>
      right
      simp [hsel]
    | false =>
      left
      simp only [hsel, Bool.false_eq_true, if_false, ite_false]
      split <;> rfl
  refine ⟨?_, ?_, ?_⟩
  · cases hsnd with
    | inl h2 => rw [h2]; exact hmain.1
    | inr h2 => rw [h2]
  · cases hsnd with
    | inl h2 => rw [h2]; exact hmain.2
    | inr h2 => rw [h2]
  · intro w hw hwgl hsel
    subst hsel
    have hfind := find?_eq_of_mem_nodup (fun x => x.id) db.inwards hnd w hw
    cases hdel : w.delivered_to_receiver with
    | true =>
      constructor <;>
        simp [warehouse_floor_delivery, floorDeliveryLoop, hfind, hdel]
    | false =>
      constructor <;>
        simp [warehouse_floor_delivery, floorDeliveryLoop, hfind, hdel, hwgl, hdn]

theorem c4_witness :
    (warehouse_floor_delivery c4db exAdmin [40] "x").2.inwards.filter
        (fun w => w.grn_line == some (1 : Nat)) =
      c4db.inwards.filter (fun w => w.grn_line == some (1 : Nat)) ∧
    (warehouse_floor_delivery c4db exAdmin [40] "x").1.success = false := by
  have h := c4_stage3_never_processes_dn_line c4db exAdmin [40] "x" 1 (by decide) (by decide)
  refine ⟨h.1, ?_⟩
  exact (h.2.2 c4inward (by decide) rfl rfl).1

/-! ## C2 and C3: infrastructure for the stage-1 analysis -/

theorem insertByNum_perm (l : GRNLine) : ∀ ls, (insertByNum l ls).Perm (l :: ls) := by
  intro ls
  induction ls with
  | nil => exact List.Perm.refl _
  | cons x xs ih =>
    simp only [insertByNum]
    cases hb : Nat.blt x.line_number l.line_number with
    | false => exact List.Perm.refl _
    | true =>
      simp only [if_true]
      exact List.Perm.trans (List.Perm.cons x ih) (List.Perm.swap l x xs)

theorem sortByNum_perm : ∀ ls, (sortByNum ls).Perm ls := by
  intro ls
  induction ls with
  | nil => exact List.Perm.refl _
  | cons x xs ih =>
    simp only [sortByNum]
    exact List.Perm.trans (insertByNum_perm x (sortByNum xs)) (List.Perm.cons x ih)

theorem assignNums_length : ∀ (n : Nat) (ls : List GRNLine),
    (assignNums n ls).length = ls.length := by
  intro n ls
  induction ls generalizing n with
  | nil => rfl
  | cons x xs ih => simp [assignNums, ih]

theorem assignNums_numbers : ∀ (n : Nat) (ls : List GRNLine),
    (assignNums n ls).map (fun l => l.line_number) = List.range' n ls.length := by
  intro n ls
  induction ls generalizing n with
  | nil => rfl
  | cons x xs ih => simp [assignNums, List.range'_succ, ih]

theorem assignNums_mem : ∀ (n : Nat) (ls : List GRNLine) (l2 : GRNLine),
    l2 ∈ assignNums n ls → ∃ l ∈ ls, l2.id = l.id ∧ l2.grn = l.grn := by
  intro n ls
  induction ls generalizing n with
  | nil => intro l2 h; cases h
  | cons x xs ih =>
    intro l2 h
    cases h with
    | head => exact ⟨x, List.mem_cons_self x xs, rfl, rfl⟩
    | tail _ h2 =>
      obtain ⟨l, hl, h3, h4⟩ := ih (n + 1) l2 h2
      exact ⟨l, List.mem_cons_of_mem x hl, h3, h4⟩

theorem assignNums_mem' : ∀ (n : Nat) (ls : List GRNLine) (l : GRNLine),
    l ∈ ls → ∃ l2 ∈ assignNums n ls, l2.id = l.id ∧ l2.grn = l.grn := by
  intro n ls
  induction ls generalizing n with
  | nil => intro l h; cases h
  | cons x xs ih =>
    intro l h
    cases h with
    | head => exact ⟨_, List.mem_cons_self _ _, rfl, rfl⟩
    | tail _ h2 =>
      obtain ⟨l2, hl2, h3, h4⟩ := ih (n + 1) l h2
      exact ⟨l2, List.mem_cons_of_mem _ hl2, h3, h4⟩

theorem assignNums_pos : ∀ (n : Nat) (ls : List GRNLine), 1 ≤ n →
    ∀ l2 ∈ assignNums n ls, l2.line_number ≠ 0 := by
  intro n ls
  induction ls generalizing n with
  | nil => intro _ l2 h; cases h
  | cons x xs ih =>
    intro hn l2 h
    cases h with
    | head => show n ≠ 0; omega
    | tail _ h2 => exact ih (n + 1) (by omega) l2 h2

theorem renumber_linesOf_self (db : DB) (g : Nat) :
    linesOf (renumberGRN db g) g = assignNums 1 (sortByNum (linesOf db g)) := by
  show (db.lines.filter (fun l => l.grn != g) ++
      assignNums 1 (sortByNum (db.lines.filter (fun l => l.grn == g)))).filter
      (fun l => l.grn == g) = _
  rw [List.filter_append]
  have h1 : (db.lines.filter (fun l => l.grn != g)).filter (fun l => l.grn == g) = [] := by
    rw [List.filter_filter, List.filter_eq_nil_iff]
    intro l _
    cases hb : (l.grn == g) with
    | false => simp [hb]
    | true =>
      have hg : l.grn = g := by simpa using hb
      simp [hg]
  have h2 : (assignNums 1 (sortByNum (db.lines.filter (fun l => l.grn == g)))).filter
      (fun l => l.grn == g) =
      assignNums 1 (sortByNum (db.lines.filter (fun l => l.grn == g))) := by
    rw [List.filter_eq_self]
    intro l2 hl2
    obtain ⟨l, hl, _, hgrn⟩ := assignNums_mem 1 _ l2 hl2
    have hl' := (List.mem_filter.mp ((sortByNum_perm _).mem_iff.mp hl)).2
    rw [hgrn]
    exact hl'
  rw [h1, h2]
  simp [linesOf]

theorem renumber_linesOf_other (db : DB) (g g2 : Nat) (h : g2 ≠ g) :
    linesOf (renumberGRN db g) g2 = linesOf db g2 := by
  show (db.lines.filter (fun l => l.grn != g) ++
      assignNums 1 (sortByNum (db.lines.filter (fun l => l.grn == g)))).filter
      (fun l => l.grn == g2) = _
  rw [List.filter_append]
  have h2 : (assignNums 1 (sortByNum (db.lines.filter (fun l => l.grn == g)))).filter
      (fun l => l.grn == g2) = [] := by
    rw [List.filter_eq_nil_iff]
    intro l2 hl2
    obtain ⟨l, hl, _, hgrn⟩ := assignNums_mem 1 _ l2 hl2
    have hl' := (List.mem_filter.mp ((sortByNum_perm _).mem_iff.mp hl)).2
    have hg : l.grn = g := by simpa using hl'
    rw [hgrn, hg]
    simp
    exact fun hh => h hh.symm
  have h1 : (db.lines.filter (fun l => l.grn != g)).filter (fun l => l.grn == g2) =
      db.lines.filter (fun l => l.grn == g2) := by
    rw [List.filter_filter]
    apply List.filter_congr
    intro l _
    cases hb : (l.grn == g2) with
    | false => simp [hb]
    | true =>
      have hgeq : l.grn = g2 := by simpa using hb
      have hbne : (l.grn != g) = true := by
        rw [hgeq]
        simpa using h
      simp [hb, hbne]
  rw [h1, h2]
  simp [linesOf]

theorem renumber_dense_self (db : DB) (g : Nat) : dense (renumberGRN db g) g := by
  unfold dense
  rw [renumber_linesOf_self, assignNums_numbers, assignNums_length]

theorem renumber_mem (db : DB) (g : Nat) : ∀ l2 ∈ (renumberGRN db g).lines,
    ∃ l ∈ db.lines, l2.id = l.id ∧ l2.grn = l.grn := by
  intro l2 h
  have h' : l2 ∈ db.lines.filter (fun l => l.grn != g) ++
      assignNums 1 (sortByNum (db.lines.filter (fun l => l.grn == g))) := h
  rcases List.mem_append.mp h' with h1 | h2
  · exact ⟨l2, (List.mem_filter.mp h1).1, rfl, rfl⟩
  · obtain ⟨l, hl, h3, h4⟩ := assignNums_mem 1 _ l2 h2
    exact ⟨l, (List.mem_filter.mp ((sortByNum_perm _).mem_iff.mp hl)).1, h3, h4⟩

theorem renumber_mem' (db : DB) (g : Nat) : ∀ l ∈ db.lines,
    ∃ l2 ∈ (renumberGRN db g).lines, l2.id = l.id ∧ l2.grn = l.grn := by
  intro l hl
  cases hb : (l.grn == g) with
  | false =>
    refine ⟨l, ?_, rfl, rfl⟩
    show l ∈ db.lines.filter (fun x => x.grn != g) ++ _
    refine List.mem_append.mpr (Or.inl ?_)
    refine List.mem_filter.mpr ⟨hl, ?_⟩
    have hne : l.grn ≠ g := by simpa using hb
    simp [hne]
  | true =>
    have hmf : l ∈ db.lines.filter (fun x => x.grn == g) := List.mem_filter.mpr ⟨hl, hb⟩
    have hms : l ∈ sortByNum (db.lines.filter (fun x => x.grn == g)) :=
      (sortByNum_perm _).mem_iff.mpr hmf
    obtain ⟨l2, hl2, h3, h4⟩ := assignNums_mem' 1 _ l hms
    refine ⟨l2, ?_, h3, h4⟩
    show l2 ∈ db.lines.filter (fun x => x.grn != g) ++ _
    exact List.mem_append.mpr (Or.inr hl2)

theorem renumber_pos (db : DB) (g : Nat) (hpos : ∀ l ∈ db.lines, l.line_number ≠ 0) :
    ∀ l2 ∈ (renumberGRN db g).lines, l2.line_number ≠ 0 := by
  intro l2 h
  have h' : l2 ∈ db.lines.filter (fun l => l.grn != g) ++
      assignNums 1 (sortByNum (db.lines.filter (fun l => l.grn == g))) := h
  rcases List.mem_append.mp h' with h1 | h2
  · exact hpos l2 (List.mem_filter.mp h1).1
  · exact assignNums_pos 1 _ (le_refl 1) l2 h2

theorem wf_of_parts (db : DB)
    (h1 : ∀ g ∈ db.grns, g.id < db.nextId)
    (h2 : ∀ l ∈ db.lines, l.id < db.nextId ∧ l.grn < db.nextId)
    (h3 : ∀ o ∈ db.otps, o.id < db.nextId ∧ ∀ gid, o.grn = some gid → gid < db.nextId)
    (h4 : ∀ d ∈ db.dns, d.id < db.nextId)
    (h5 : ∀ w ∈ db.inwards, w.id < db.nextId) :
    wf db = true := by
  simp only [wf, Bool.and_eq_true, List.all_eq_true, decide_eq_true_eq]
  refine ⟨⟨⟨⟨h1, ?_⟩, ?_⟩, h4⟩, h5⟩
  · intro l hl
    have := h2 l hl
    simp [this.1, this.2]
  · intro o ho
    obtain ⟨ha, hb⟩ := h3 o ho
    refine ⟨by simpa using ha, ?_⟩
    cases hg : o.grn with
    | none => simp [Option.all]
    | some gid =>
      simp only [Option.all, decide_eq_true_eq]
      exact hb gid hg

theorem renumber_wf (db : DB) (g : Nat) (hwf : wf db = true) :
    wf (renumberGRN db g) = true := by
  obtain ⟨h1, h2, h3, h4, h5⟩ := wf_facts db hwf
  apply wf_of_parts
  · exact h1
  · intro l2 hl2
    obtain ⟨l, hl, hid, hgrn⟩ := renumber_mem db g l2 hl2
    rw [hid, hgrn]
    exact h2 l hl
  · exact h3
  · exact h4
  · exact h5

theorem moveLines_tables (uid : Nat) (rem origName : String) (newGid : Nat) :
    ∀ (lids : List Nat) (d : DB),
      (moveLines uid rem origName newGid d lids).grns = d.grns ∧
      (moveLines uid rem origName newGid d lids).otps = d.otps ∧
      (moveLines uid rem origName newGid d lids).dns = d.dns ∧
      (moveLines uid rem origName newGid d lids).locations = d.locations ∧
      (moveLines uid rem origName newGid d lids).now = d.now ∧
      (moveLines uid rem origName newGid d lids).nextId = d.nextId + lids.length := by
  intro lids
  induction lids with
  | nil =>
    intro d
    exact ⟨rfl, rfl, rfl, rfl, rfl, rfl⟩
  | cons lid rest ih =>
    intro d
    simp only [moveLines]
    obtain ⟨a, b, c, d2, f, g2⟩ := ih _
    refine ⟨a, b, c, d2, f, ?_⟩
    rw [g2]
    simp only [List.length_cons]
    omega

theorem moveLines_lines_eq (uid : Nat) (rem origName : String) (newGid : Nat) :
    ∀ (lids : List Nat) (d : DB),
      (∀ l ∈ d.lines, l.line_number ≠ 0) →
      (moveLines uid rem origName newGid d lids).lines =
        d.lines.map (fun l =>
          if lids.contains l.id then { l with grn := newGid } else l) := by
  intro lids
  induction lids with
  | nil =>
    intro d _
    simp only [moveLines]
    symm
    simp
  | cons lid rest ih =>
    intro d hpos
    simp only [moveLines]
    have hpos1 : ∀ l1 ∈ (d.lines.map (fun l =>
        if l.id == lid then
          { l with
            grn := newGid
            line_number := grnline_save_number d newGid l.line_number }
        else l)), l1.line_number ≠ 0 := by
      intro l1 h1
      rw [List.mem_map] at h1
      obtain ⟨l, hl, rfl⟩ := h1
      have hnum : (l.line_number == 0) = false := by simpa using hpos l hl
      cases hb : (l.id == lid) with
      | false => simpa [hb] using hpos l hl
      | true =>
        simp only [hb, if_true, grnline_save_number, hnum]
        simpa using hpos l hl
    rw [ih _ hpos1]
    rw [List.map_map]
    apply List.map_congr_left
    intro l hl
    have hnum : (l.line_number == 0) = false := by simpa using hpos l hl
    simp only [Function.comp]
    cases h1 : (l.id == lid) with
    | true =>
      have h1' : l.id = lid := by simpa using h1
      cases h2 : rest.contains l.id with
      | true => simp [h1, h2, grnline_save_number, hnum, List.contains_cons, h1']
      | false => simp [h1, h2, grnline_save_number, hnum, List.contains_cons, h1']
    | false =>
      have h1' : ¬ l.id = lid := by simpa using h1
      cases h2 : rest.contains l.id with
      | true =>
        have h2' : l.id ∈ rest := by simpa using h2
        simp [h1, h2, List.contains_cons, h1', h2']
      | false =>
        have h2' : ¬ l.id ∈ rest := by simpa using h2
        simp [h1, h2, List.contains_cons, h1', h2']

theorem moveLines_inwards (uid : Nat) (rem origName : String) (newGid : Nat) :
    ∀ (lids : List Nat) (d : DB),
      ∃ news : List WarehouseInward,
        (moveLines uid rem origName newGid d lids).inwards = d.inwards ++ news ∧
        news.map (fun w => w.grn_line) = lids.map some ∧
        (∀ w ∈ news, w.inwarded_by = uid ∧ w.floor = none ∧ d.nextId ≤ w.id ∧
          w.id < d.nextId + lids.length) := by
  intro lids
  induction lids with
  | nil =>
    intro d
    exact ⟨[], by simp [moveLines], rfl, by intro w h; cases h⟩
  | cons lid rest ih =>
    intro d
    simp only [moveLines]
    obtain ⟨news, h1, h2, h3⟩ := ih _
    refine ⟨⟨d.nextId, some lid, uid, d.now,
      some (if rem.isEmpty then "Transferred from " ++ origName else rem),
      none, none, none, none, none, false, none, none, none⟩ :: news, ?_, ?_, ?_⟩
    · rw [h1]
      simp
    · simp only [List.map_cons]
      rw [h2]
    · intro w hw
      cases hw with
      | head =>
        refine ⟨rfl, rfl, le_refl _, ?_⟩
        simp only [List.length_cons]
        omega
      | tail _ hw2 =>
        obtain ⟨a, b, c, d3⟩ := h3 w hw2
        have c2 : d.nextId + 1 ≤ w.id := c
        have d4 : w.id < d.nextId + 1 + rest.length := d3
        refine ⟨a, b, ?_, ?_⟩
        · show d.nextId ≤ w.id
          omega
        · show w.id < d.nextId + (lid :: rest).length
          simp only [List.length_cons]
          omega

theorem mkLines_grn (gid : Nat) : ∀ (idn num : Nat) (ls : List LineInput),
    ∀ l ∈ mkLines gid idn num ls, l.grn = gid := by
  intro idn num ls
  induction ls generalizing idn num with
  | nil => intro l h; cases h
  | cons x xs ih =>
    intro l h
    cases h with
    | head => rfl
    | tail _ h2 => exact ih (idn + 1) (num + 1) l h2

theorem mkLines_numbers (gid : Nat) : ∀ (idn num : Nat) (ls : List LineInput),
    (mkLines gid idn num ls).map (fun l => l.line_number) =
      List.range' num ls.length := by
  intro idn num ls
  induction ls generalizing idn num with
  | nil => rfl
  | cons x xs ih => simp [mkLines, List.range'_succ, ih]

theorem mkLines_length (gid : Nat) : ∀ (idn num : Nat) (ls : List LineInput),
    (mkLines gid idn num ls).length = ls.length := by
  intro idn num ls
  induction ls generalizing idn num with
  | nil => rfl
  | cons x xs ih => simp [mkLines, ih]

theorem mkLines_id_bounds (gid : Nat) : ∀ (idn num : Nat) (ls : List LineInput),
    ∀ l ∈ mkLines gid idn num ls, idn ≤ l.id ∧ l.id < idn + ls.length := by
  intro idn num ls
  induction ls generalizing idn num with
  | nil => intro l h; cases h
  | cons x xs ih =>
    intro l h
    cases h with
    | head =>
      refine ⟨le_refl _, ?_⟩
      show idn < idn + (x :: xs).length
      simp only [List.length_cons]
      omega
    | tail _ h2 =>
      obtain ⟨a, b⟩ := ih (idn + 1) (num + 1) l h2
      refine ⟨by omega, ?_⟩
      show l.id < idn + (x :: xs).length
      simp only [List.length_cons]
      omega

theorem mkLines_pos (gid : Nat) : ∀ (idn num : Nat) (ls : List LineInput), 1 ≤ num →
    ∀ l ∈ mkLines gid idn num ls, l.line_number ≠ 0 := by
  intro idn num ls
  induction ls generalizing idn num with
  | nil => intro _ l h; cases h
  | cons x xs ih =>
    intro hn l h
    cases h with
    | head => show num ≠ 0; omega
    | tail _ h2 => exact ih (idn + 1) (num + 1) (by omega) l h2

theorem find?_append_left {α : Type} (p : α → Bool) (l1 l2 : List α) (x : α)
    (h : l1.find? p = some x) : (l1 ++ l2).find? p = some x := by
  rw [List.find?_append, h]
  rfl

theorem news_filter_count (lid : Nat) :
    ∀ (lids : List Nat) (news : List WarehouseInward),
      news.map (fun w => w.grn_line) = lids.map some →
      (news.filter (fun w => w.grn_line == some lid)).length =
        (lids.filter (fun x => x == lid)).length := by
  intro lids
  induction lids with
  | nil =>
    intro news h
    cases news with
    | nil => rfl
    | cons _ _ => simp at h
  | cons a rest ih =>
    intro news h
    cases news with
    | nil => simp at h
    | cons w ws =>
      simp only [List.map_cons, List.cons.injEq] at h
      obtain ⟨h1, h2⟩ := h
      simp only [List.filter_cons, h1]
      cases hb : (a == lid) with
      | true =>
        have hbb : ((some a : Option Nat) == some lid) = true := by simpa using hb
        simp [hbb, hb, ih ws h2]
      | false =>
        have hbb : ((some a : Option Nat) == some lid) = false := by simpa using hb
        simp [hbb, hb, ih ws h2]

theorem filter_beq_length_one (lids : List Nat) (hnd : lids.Nodup) (lid : Nat)
    (hmem : lid ∈ lids) : (lids.filter (fun x => x == lid)).length = 1 := by
  rw [← List.countP_eq_length_filter]
  have hc := List.count_eq_one_of_mem hnd hmem
  simpa [List.count] using hc

theorem contains_iff_mem (l : List Nat) (a : Nat) : l.contains a = true ↔ a ∈ l :=
  List.elem_iff

theorem dense_of_linesOf_eq (dbA dbB : DB) (g : Nat)
    (h : linesOf dbA g = linesOf dbB g) (hd : dense dbB g) : dense dbA g := by
  unfold dense at *
  rw [h]
  exact hd

theorem assignNums_ids : ∀ (n : Nat) (ls : List GRNLine),
    (assignNums n ls).map (fun l => l.id) = ls.map (fun l => l.id) := by
  intro n ls
  induction ls generalizing n with
  | nil => rfl
  | cons x xs ih => simp [assignNums, ih]

theorem renumber_ids_perm (db : DB) (g : Nat) :
    ((renumberGRN db g).lines.map (fun l => l.id)).Perm
      (db.lines.map (fun l => l.id)) := by
  show ((db.lines.filter (fun l => l.grn != g) ++
      assignNums 1 (sortByNum (db.lines.filter (fun l => l.grn == g)))).map
        (fun l => l.id)).Perm (db.lines.map (fun l => l.id))
  rw [List.map_append, assignNums_ids]
  have hs := (sortByNum_perm (db.lines.filter (fun l => l.grn == g))).map
    (fun l => l.id)
  have happ := (List.Perm.refl ((db.lines.filter (fun l => l.grn != g)).map
    (fun l => l.id))).append hs
  refine happ.trans ?_
  rw [← List.map_append]
  refine List.Perm.map _ ?_
  have he : db.lines.filter (fun l => !(l.grn != g)) =
      db.lines.filter (fun l => l.grn == g) := by
    apply List.filter_congr
    intro x _
    simp [bne]
  rw [← he]
  exact List.filter_append_perm _ _

theorem map_ids_of_moved (lids : List Nat) (newGid : Nat) (ls : List GRNLine) :
    ((ls.map (fun l =>
      if lids.contains l.id then { l with grn := newGid } else l)).map
        (fun l => l.id)) = ls.map (fun l => l.id) := by
  rw [List.map_map]
  apply List.map_congr_left
  intro l _
  simp only [Function.comp]
  cases hb : lids.contains l.id <;> simp [hb]

/-- The database produced by one successful group of stage 1 (the body of
`processGroup` on its success path, before the email branch). -/
def stage1GroupDb (u : CustomUser) (rem : String) (rand : Nat → Nat)
    (db : DB) (g : Nat) (lids : List Nat) (orig : GRN) (loc : Location) : DB :=
  let newGid := db.nextId
  let newGrn : GRN :=
    { id := newGid
      receiver := orig.receiver
      delivery_location := u.location
      created_by := some u.id
      place := some ("Transferred from " ++ loc.name) }
  let db1 : DB :=
    { db with
      grns := db.grns ++ [newGrn]
      nextId := db.nextId + 1 }
  let db4 := renumberGRN (renumberGRN (moveLines u.id rem loc.name newGid db1 lids) g) newGid
  let newOtp : OTP :=
    { id := db4.nextId
      otp := OTP.generate_otp (rand newGid)
      grn := some newGid
      created_at := db4.now
      valid := true }
  { db4 with
    otps := db4.otps ++ [newOtp]
    nextId := db4.nextId + 1 }

theorem processGroup_eq (u : CustomUser) (rem : String) (emailOk : Nat → Bool)
    (rand : Nat → Nat) (db : DB) (cnt : Nat) (errs : List String) (created : List Nat)
    (g : Nat) (lids : List Nat) (orig : GRN) (locId : Nat) (loc : Location)
    (hfind : db.grns.find? (fun x => x.id == g) = some orig)
    (hloc : orig.delivery_location = some locId)
    (hlocfind : db.locations.find? (fun l => l.id == locId) = some loc) :
    (processGroup u rem emailOk rand (db, cnt, errs, created) (g, lids)).1 =
      (if emailOk db.nextId then
        { stage1GroupDb u rem rand db g lids orig loc with
          sentEmails := (stage1GroupDb u rem rand db g lids orig loc).sentEmails ++
            [⟨db.nextId, OTP.generate_otp (rand db.nextId)⟩] }
       else stage1GroupDb u rem rand db g lids orig loc) := by
  simp only [processGroup, stage1GroupDb]
  rw [hfind]
  simp only [hloc, hlocfind]
  cases hem : emailOk db.nextId <;> simp [hem]

theorem stage1GroupDb_spec (u : CustomUser) (rem : String) (rand : Nat → Nat)
    (db : DB) (g : Nat) (lids : List Nat) (orig : GRN) (loc : Location)
    (hwf : wf db = true)
    (hpos : ∀ l ∈ db.lines, l.line_number ≠ 0)
    (hdir : ∀ l ∈ db.lines, l.id ∈ lids → l.grn = g)
    (hex : ∀ lid ∈ lids, ∃ l ∈ db.lines, l.id = lid)
    (hg : g < db.nextId) :
    ∀ dbG, dbG = stage1GroupDb u rem rand db g lids orig loc →
    dbG.grns = db.grns ++ [⟨db.nextId, orig.receiver, u.location, some u.id,
      some ("Transferred from " ++ loc.name)⟩] ∧
    dbG.otps = db.otps ++ [⟨db.nextId + 1 + lids.length,
      OTP.generate_otp (rand db.nextId), some db.nextId, db.now, true⟩] ∧
    (∃ news, dbG.inwards = db.inwards ++ news ∧
      news.map (fun w => w.grn_line) = lids.map some ∧
      (∀ w ∈ news, w.inwarded_by = u.id ∧ w.floor = none ∧
        db.nextId ≤ w.id ∧ w.id < db.nextId + 1 + lids.length)) ∧
    dbG.dns = db.dns ∧
    dbG.locations = db.locations ∧
    (∀ l2 ∈ dbG.lines, ∃ l ∈ db.lines, l2.id = l.id ∧
      (l2.grn = l.grn ∨ (l2.id ∈ lids ∧ l2.grn = db.nextId))) ∧
    (∀ lid ∈ lids, ∃ l2 ∈ dbG.lines, l2.id = lid ∧ l2.grn = db.nextId) ∧
    (∀ l ∈ db.lines, ∃ l2 ∈ dbG.lines, l2.id = l.id) ∧
    (∀ g2, g2 ≠ g → g2 ≠ db.nextId → linesOf dbG g2 = linesOf db g2) ∧
    dense dbG g ∧ dense dbG db.nextId ∧
    dbG.nextId = db.nextId + 1 + lids.length + 1 ∧
    dbG.now = db.now ∧
    wf dbG = true ∧
    (∀ l2 ∈ dbG.lines, l2.line_number ≠ 0) ∧
    (dbG.lines.map (fun l => l.id)).Perm (db.lines.map (fun l => l.id)) := by
  intro dbG hdbG
  -- name the intermediate states of the group body
  have hdb1 : ∃ db1 : DB, db1 =
      { db with
        grns := db.grns ++ [⟨db.nextId, orig.receiver, u.location, some u.id,
          some ("Transferred from " ++ loc.name)⟩]
        nextId := db.nextId + 1 } := ⟨_, rfl⟩
  obtain ⟨db1, hdb1⟩ := hdb1
  have hdb2 : ∃ db2, db2 = moveLines u.id rem loc.name db.nextId db1 lids := ⟨_, rfl⟩
  obtain ⟨db2, hdb2⟩ := hdb2
  have hdb3 : ∃ db3, db3 = renumberGRN db2 g := ⟨_, rfl⟩
  obtain ⟨db3, hdb3⟩ := hdb3
  have hdb4 : ∃ db4, db4 = renumberGRN db3 db.nextId := ⟨_, rfl⟩
  obtain ⟨db4, hdb4⟩ := hdb4
  have hGform : dbG =
      { db4 with
        otps := db4.otps ++ [⟨db4.nextId, OTP.generate_otp (rand db.nextId),
          some db.nextId, db4.now, true⟩]
        nextId := db4.nextId + 1 } := by
    rw [hdbG, hdb4, hdb3, hdb2, hdb1]
    rfl
  -- facts about db1
  have h1lines : db1.lines = db.lines := by rw [hdb1]
  have h1grns : db1.grns = db.grns ++ [⟨db.nextId, orig.receiver, u.location, some u.id,
      some ("Transferred from " ++ loc.name)⟩] := by rw [hdb1]
  have h1next : db1.nextId = db.nextId + 1 := by rw [hdb1]
  -- facts about db2 (moveLines)
  have hmt := moveLines_tables u.id rem loc.name db.nextId lids db1
  have h2lines : db2.lines = db.lines.map (fun l =>
      if lids.contains l.id then { l with grn := db.nextId } else l) := by
    rw [hdb2, moveLines_lines_eq u.id rem loc.name db.nextId lids db1
      (by rw [h1lines]; exact hpos), h1lines]
  have hmt := moveLines_tables u.id rem loc.name db.nextId lids db1
  have h2grns : db2.grns = db1.grns := by rw [hdb2]; exact hmt.1
  have h2otps : db2.otps = db.otps := by rw [hdb2, hmt.2.1, hdb1]
  have h2dns : db2.dns = db.dns := by rw [hdb2, hmt.2.2.1, hdb1]
  have h2locs : db2.locations = db.locations := by rw [hdb2, hmt.2.2.2.1, hdb1]
  have h2now : db2.now = db.now := by rw [hdb2, hmt.2.2.2.2.1, hdb1]
  have h2next : db2.nextId = db.nextId + 1 + lids.length := by
    rw [hdb2, hmt.2.2.2.2.2, h1next]
  obtain ⟨news, hinw0, hnewsmap, hnewsprops⟩ :=
    moveLines_inwards u.id rem loc.name db.nextId lids db1
  have h2inw : db2.inwards = db.inwards ++ news := by rw [hdb2, hinw0, hdb1]
  have hnews2 : ∀ w ∈ news, w.inwarded_by = u.id ∧ w.floor = none ∧
      db.nextId ≤ w.id ∧ w.id < db.nextId + 1 + lids.length := by
    intro w hw
    obtain ⟨a, b, c, d⟩ := hnewsprops w hw
    rw [h1next] at c d
    exact ⟨a, b, by omega, d⟩
  -- the two renumbering passes change only the lines table
  have h4grns : db4.grns = db1.grns := by rw [hdb4, hdb3]; exact h2grns
  have h4otps : db4.otps = db.otps := by rw [hdb4, hdb3]; exact h2otps
  have h4dns : db4.dns = db.dns := by rw [hdb4, hdb3]; exact h2dns
  have h4locs : db4.locations = db.locations := by rw [hdb4, hdb3]; exact h2locs
  have h4now : db4.now = db.now := by rw [hdb4, hdb3]; exact h2now
  have h4next : db4.nextId = db.nextId + 1 + lids.length := by
    rw [hdb4, hdb3]; exact h2next
  have h4inw : db4.inwards = db.inwards ++ news := by rw [hdb4, hdb3]; exact h2inw
  -- dbG table facts
  have hGgrns : dbG.grns = db.grns ++ [⟨db.nextId, orig.receiver, u.location, some u.id,
      some ("Transferred from " ++ loc.name)⟩] := by
    rw [hGform]
    show db4.grns = _
    rw [h4grns, h1grns]
  have hGotps : dbG.otps = db.otps ++ [⟨db.nextId + 1 + lids.length,
      OTP.generate_otp (rand db.nextId), some db.nextId, db.now, true⟩] := by
    rw [hGform]
    show db4.otps ++ [⟨db4.nextId, OTP.generate_otp (rand db.nextId),
      some db.nextId, db4.now, true⟩] = _
    rw [h4otps, h4next, h4now]
  have hGinw : dbG.inwards = db.inwards ++ news := by
    rw [hGform]
    show db4.inwards = _
    exact h4inw
  have hGdns : dbG.dns = db.dns := by
    rw [hGform]
    show db4.dns = _
    exact h4dns
  have hGlocs : dbG.locations = db.locations := by
    rw [hGform]
    show db4.locations = _
    exact h4locs
  have hGlines : dbG.lines = db4.lines := by rw [hGform]
  have hGnext : dbG.nextId = db.nextId + 1 + lids.length + 1 := by
    rw [hGform]
    show db4.nextId + 1 = _
    rw [h4next]
  have hGnow : dbG.now = db.now := by
    rw [hGform]
    show db4.now = _
    exact h4now
  -- line correspondence
  have hcorr : ∀ l2 ∈ dbG.lines, ∃ l ∈ db.lines, l2.id = l.id ∧
      (l2.grn = l.grn ∨ (l2.id ∈ lids ∧ l2.grn = db.nextId)) := by
    intro l2 hl2
    rw [hGlines, hdb4] at hl2
    obtain ⟨l3, hl3, hid34, hgrn34⟩ := renumber_mem _ _ l2 hl2
    rw [hdb3] at hl3
    obtain ⟨l4, hl4, hid43, hgrn43⟩ := renumber_mem _ _ l3 hl3
    rw [h2lines, List.mem_map] at hl4
    obtain ⟨l, hl, hfl⟩ := hl4
    have hid : l2.id = l.id := by
      rw [hid34, hid43, ← hfl]
      cases hb : lids.contains l.id <;> simp [hb]
    have hgrn : l2.grn = l4.grn := by rw [hgrn34, hgrn43]
    refine ⟨l, hl, hid, ?_⟩
    cases hb : lids.contains l.id with
    | true =>
      right
      have hb' : l.id ∈ lids := (contains_iff_mem lids l.id).mp hb
      refine ⟨?_, ?_⟩
      · rw [hid]
        exact hb'
      · rw [hgrn, ← hfl]
        simp [hb']
    | false =>
      left
      have hb' : l.id ∉ lids := by simpa using hb
      rw [hgrn, ← hfl]
      simp [hb']
  -- every selected line now sits in the new GRN
  have hmoved : ∀ lid ∈ lids, ∃ l2 ∈ dbG.lines, l2.id = lid ∧ l2.grn = db.nextId := by
    intro lid hlid
    obtain ⟨l, hl, hlId⟩ := hex lid hlid
    have hcont : lids.contains l.id = true :=
      (contains_iff_mem lids l.id).mpr (hlId ▸ hlid)
    have hfmem : ({ l with grn := db.nextId } : GRNLine) ∈ db2.lines := by
      rw [h2lines]
      have hm := List.mem_map_of_mem
        (fun l => if lids.contains l.id then { l with grn := db.nextId } else l) hl
      have hcont' : l.id ∈ lids := hlId ▸ hlid
      simpa [hcont'] using hm
    obtain ⟨l3, hl3, hid3, hgrn3⟩ := renumber_mem' db2 g _ hfmem
    have hl3' : l3 ∈ db3.lines := by rw [hdb3]; exact hl3
    obtain ⟨l4, hl4, hid4, hgrn4⟩ := renumber_mem' db3 db.nextId l3 hl3'
    have hl4' : l4 ∈ dbG.lines := by rw [hGlines, hdb4]; exact hl4
    refine ⟨l4, hl4', ?_, ?_⟩
    · rw [hid4, hid3]
      exact hlId
    · rw [hgrn4, hgrn3]
  -- line ids preserved
  have hids : ∀ l ∈ db.lines, ∃ l2 ∈ dbG.lines, l2.id = l.id := by
    intro l hl
    have hfmem : (if lids.contains l.id then { l with grn := db.nextId } else l) ∈ db2.lines := by
      rw [h2lines]
      exact List.mem_map_of_mem _ hl
    obtain ⟨l3, hl3, hid3, _⟩ := renumber_mem' db2 g _ hfmem
    have hl3' : l3 ∈ db3.lines := by rw [hdb3]; exact hl3
    obtain ⟨l4, hl4, hid4, _⟩ := renumber_mem' db3 db.nextId l3 hl3'
    have hl4' : l4 ∈ dbG.lines := by rw [hGlines, hdb4]; exact hl4
    refine ⟨l4, hl4', ?_⟩
    rw [hid4, hid3]
    cases hb : lids.contains l.id <;> simp [hb]
  -- untouched GRNs keep their line lists
  have hother : ∀ g2, g2 ≠ g → g2 ≠ db.nextId → linesOf dbG g2 = linesOf db g2 := by
    intro g2 hne1 hne2
    have e4 : linesOf dbG g2 = linesOf db4 g2 := by
      unfold linesOf
      rw [hGlines]
    rw [e4, hdb4, renumber_linesOf_other db3 db.nextId g2 hne2, hdb3,
      renumber_linesOf_other db2 g g2 hne1]
    show db2.lines.filter (fun l => l.grn == g2) = db.lines.filter (fun l => l.grn == g2)
    rw [h2lines]
    apply filter_map_fix
    · intro x hx
      cases hb : lids.contains x.id with
      | true =>
        have hxg : x.grn = g := hdir x hx ((contains_iff_mem _ _).mp hb)
        have e1 : ((db.nextId : Nat) == g2) = false := by
          simpa using fun h => hne2 h.symm
        have e2 : (x.grn == g2) = false := by
          rw [hxg]
          simpa using fun h => hne1 h.symm
        simp [hb, e1, e2]
      | false => simp [hb]
    · intro x hx hpx
      have hxg2 : x.grn = g2 := by simpa using hpx
      cases hb : lids.contains x.id with
      | false => simp [hb]
      | true =>
        have hxg : x.grn = g := hdir x hx ((contains_iff_mem _ _).mp hb)
        rw [hxg] at hxg2
        exact absurd hxg2.symm hne1
  -- density of the two touched GRNs
  have hdense_g : dense dbG g := by
    have hd3 : dense db3 g := by rw [hdb3]; exact renumber_dense_self db2 g
    have he : linesOf dbG g = linesOf db3 g := by
      have e4 : linesOf dbG g = linesOf db4 g := by
        unfold linesOf
        rw [hGlines]
      rw [e4, hdb4]
      exact renumber_linesOf_other db3 db.nextId g (by omega)
    exact dense_of_linesOf_eq dbG db3 g he hd3
  have hdense_new : dense dbG db.nextId := by
    have hd4 : dense db4 db.nextId := by
      rw [hdb4]
      exact renumber_dense_self db3 db.nextId
    have he : linesOf dbG db.nextId = linesOf db4 db.nextId := by
      unfold linesOf
      rw [hGlines]
    exact dense_of_linesOf_eq dbG db4 _ he hd4
  -- positivity of line numbers
  have hpos2 : ∀ l ∈ db2.lines, l.line_number ≠ 0 := by
    intro l hl
    rw [h2lines, List.mem_map] at hl
    obtain ⟨x, hx, rfl⟩ := hl
    cases hb : lids.contains x.id with
    | true => simpa [hb] using hpos x hx
    | false => simpa [hb] using hpos x hx
  have hGpos : ∀ l2 ∈ dbG.lines, l2.line_number ≠ 0 := by
    intro l2 hl2
    rw [hGlines, hdb4] at hl2
    refine renumber_pos _ _ ?_ l2 hl2
    intro l3 hl3
    rw [hdb3] at hl3
    exact renumber_pos db2 g hpos2 l3 hl3
  -- well-formedness
  have hGwf : wf dbG = true := by
    obtain ⟨w1, w2, w3, w4, w5⟩ := wf_facts db hwf
    apply wf_of_parts
    · rw [hGgrns, hGnext]
      intro x hx
      rcases List.mem_append.mp hx with h | h
      · have := w1 x h
        omega
      · rw [List.mem_singleton] at h
        rw [h]
        show db.nextId < db.nextId + 1 + lids.length + 1
        omega
    · rw [hGnext]
      intro l2 hl2
      obtain ⟨l, hl, hid, hd⟩ := hcorr l2 hl2
      obtain ⟨b1, b2⟩ := w2 l hl
      constructor
      · rw [hid]
        omega
      · rcases hd with h | ⟨_, h⟩
        · rw [h]
          omega
        · rw [h]
          omega
    · rw [hGotps, hGnext]
      intro o ho
      rcases List.mem_append.mp ho with h | h
      · obtain ⟨b1, b2⟩ := w3 o h
        refine ⟨by omega, ?_⟩
        intro gid hgid
        have := b2 gid hgid
        omega
      · rw [List.mem_singleton] at h
        rw [h]
        refine ⟨?_, ?_⟩
        · show db.nextId + 1 + lids.length < db.nextId + 1 + lids.length + 1
          omega
        · intro gid hgid
          have h2 : db.nextId = gid := by simpa using hgid
          omega
    · rw [hGdns, hGnext]
      intro d2 hd2
      have := w4 d2 hd2
      omega
    · rw [hGinw, hGnext]
      intro w hw
      rcases List.mem_append.mp hw with h | h
      · have := w5 w h
        omega
      · obtain ⟨_, _, c1, c2⟩ := hnews2 w h
        omega
  -- the multiset of line ids is untouched
  have hGperm : (dbG.lines.map (fun l => l.id)).Perm
      (db.lines.map (fun l => l.id)) := by
    have p4 : (db4.lines.map (fun l => l.id)).Perm
        (db3.lines.map (fun l => l.id)) := by
      rw [hdb4]
      exact renumber_ids_perm db3 db.nextId
    have p3 : (db3.lines.map (fun l => l.id)).Perm
        (db2.lines.map (fun l => l.id)) := by
      rw [hdb3]
      exact renumber_ids_perm db2 g
    have p2 : db2.lines.map (fun l => l.id) = db.lines.map (fun l => l.id) := by
      rw [h2lines]
      exact map_ids_of_moved lids db.nextId db.lines
    rw [hGlines, ← p2]
    exact p4.trans p3
  exact ⟨hGgrns, hGotps, ⟨news, hGinw, hnewsmap, hnews2⟩, hGdns, hGlocs, hcorr,
    hmoved, hids, hother, hdense_g, hdense_new, hGnext, hGnow, hGwf, hGpos, hGperm⟩

/-- What a successful stage-1 validation of one line id guarantees: the line
exists, sits in a GRN whose delivery location is a warehouse, and has no
WarehouseInward yet. -/
theorem validLine_ok (db : DB) (lid g : Nat) (h : validLine db lid = Except.ok g) :
    ∃ l ∈ db.lines, l.id = lid ∧ l.grn = g ∧ hasInward db lid = false ∧
      ∃ orig, db.grns.find? (fun x => x.id == g) = some orig ∧
        ∃ locId loc, orig.delivery_location = some locId ∧
          db.locations.find? (fun x => x.id == locId) = some loc ∧
          loc.is_warehouse = true := by
  unfold validLine at h
  split at h
  · exact absurd h (by simp)
  rename_i l hf
  split at h
  · exact absurd h (by simp)
  rename_i orig hg
  split at h
  · exact absurd h (by simp)
  rename_i locId hd
  split at h
  · exact absurd h (by simp)
  rename_i loc hl
  cases hw : loc.is_warehouse with
  | false => rw [hw] at h; exact absurd h (by simp)
  | true =>
    rw [hw] at h
    simp only [Bool.not_true, Bool.false_eq_true, if_false] at h
    cases hi : hasInward db lid with
    | true => rw [hi] at h; exact absurd h (by simp)
    | false =>
      rw [hi] at h
      simp only [Bool.false_eq_true, if_false, Except.ok.injEq] at h
      have hlmem := List.mem_of_find?_eq_some hf
      have hlid : l.id = lid := by simpa using List.find?_some hf
      rw [h] at hg
      exact ⟨l, hlmem, hlid, h, rfl, orig, hg, locId, loc, hd, hl, hw⟩

/-- Invariant of the grouping phase: group keys are distinct and every group
is a nonempty duplicate-free list of line ids that validated to that key. -/
def GInv (db : DB) (groups : List (Nat × List Nat)) : Prop :=
  ((groups.map Prod.fst).Nodup) ∧
  ∀ p ∈ groups, p.2 ≠ [] ∧ p.2.Nodup ∧
    ∀ x ∈ p.2, validLine db x = Except.ok p.1

theorem addToGroup_mem : ∀ (groups : List (Nat × List Nat)) (g lid : Nat),
    ∀ q ∈ addToGroup groups g lid, q ∈ groups ∨
      (q.1 = g ∧ (q.2 = [lid] ∨ ∃ pre, (q.1, pre) ∈ groups ∧ q.2 = pre ++ [lid])) := by
  intro groups
  induction groups with
  | nil =>
    intro g lid q hq
    simp only [addToGroup, List.mem_singleton] at hq
    rw [hq]
    exact Or.inr ⟨rfl, Or.inl rfl⟩
  | cons p rest ih =>
    intro g lid q hq
    simp only [addToGroup] at hq
    cases hb : (p.1 == g) with
    | true =>
      rw [hb] at hq
      simp only [if_true] at hq
      cases hq with
      | head =>
        refine Or.inr ⟨by simpa using hb, Or.inr ⟨p.2, ?_, rfl⟩⟩
        exact List.mem_cons_self _ _
      | tail _ hq2 => exact Or.inl (List.mem_cons_of_mem _ hq2)
    | false =>
      rw [hb] at hq
      simp only [Bool.false_eq_true, if_false] at hq
      cases hq with
      | head => exact Or.inl (List.mem_cons_self _ _)
      | tail _ hq2 =>
        cases ih g lid q hq2 with
        | inl h => exact Or.inl (List.mem_cons_of_mem _ h)
        | inr h =>
          cases h.2 with
          | inl h2 => exact Or.inr ⟨h.1, Or.inl h2⟩
          | inr h2 =>
            obtain ⟨pre, hpre, he⟩ := h2
            exact Or.inr ⟨h.1, Or.inr ⟨pre, List.mem_cons_of_mem _ hpre, he⟩⟩

theorem addToGroup_fst : ∀ (groups : List (Nat × List Nat)) (g lid : Nat),
    (addToGroup groups g lid).map Prod.fst = groups.map Prod.fst ∨
      ((addToGroup groups g lid).map Prod.fst = groups.map Prod.fst ++ [g] ∧
        g ∉ groups.map Prod.fst) := by
  intro groups
  induction groups with
  | nil =>
    intro g lid
    exact Or.inr ⟨rfl, by simp⟩
  | cons p rest ih =>
    intro g lid
    simp only [addToGroup]
    cases hb : (p.1 == g) with
    | true =>
      exact Or.inl (by simp)
    | false =>
      have hb' : p.1 ≠ g := by simpa using hb
      simp only [Bool.false_eq_true, if_false, List.map_cons]
      cases ih g lid with
      | inl h => exact Or.inl (by rw [h])
      | inr h =>
        refine Or.inr ⟨by rw [h.1]; rfl, ?_⟩
        simp only [List.mem_cons]
        rintro (h2 | h2)
        · exact hb' h2.symm
        · exact h.2 h2

theorem buildGroups_inv (db : DB) : ∀ (todo : List Nat)
    (groups : List (Nat × List Nat)) (errs : List String),
    todo.Nodup → (∀ p ∈ groups, ∀ x ∈ p.2, x ∉ todo) → GInv db groups →
    GInv db (buildGroups db todo groups errs).1 := by
  intro todo
  induction todo with
  | nil =>
    intro groups errs _ _ hg
    exact hg
  | cons lid rest ih =>
    intro groups errs hnd hsep hg
    obtain ⟨hlidrest, hrestnd⟩ := List.nodup_cons.mp hnd
    simp only [buildGroups]
    cases hv : validLine db lid with
    | error e =>
      simp only [hv]
      refine ih groups (errs ++ [e]) hrestnd ?_ hg
      intro p hp x hx hmem
      exact hsep p hp x hx (List.mem_cons_of_mem _ hmem)
    | ok g =>
      simp only [hv]
      refine ih (addToGroup groups g lid) errs hrestnd ?_ ?_
      · intro q hq x hx
        cases addToGroup_mem groups g lid q hq with
        | inl h =>
          intro hmem
          exact hsep q h x hx (List.mem_cons_of_mem _ hmem)
        | inr h =>
          cases h.2 with
          | inl h2 =>
            rw [h2, List.mem_singleton] at hx
            rw [hx]
            exact hlidrest
          | inr h2 =>
            obtain ⟨pre, hpre, he⟩ := h2
            rw [he, List.mem_append, List.mem_singleton] at hx
            cases hx with
            | inl hx2 =>
              intro hmem
              exact hsep (q.1, pre) hpre x hx2 (List.mem_cons_of_mem _ hmem)
            | inr hx2 =>
              rw [hx2]
              exact hlidrest
      · obtain ⟨hknd, hgrp⟩ := hg
        constructor
        · cases addToGroup_fst groups g lid with
          | inl h => rw [h]; exact hknd
          | inr h =>
            rw [h.1]
            have hperm := List.perm_append_singleton g (groups.map Prod.fst)
            rw [hperm.nodup_iff]
            exact List.nodup_cons.mpr ⟨h.2, hknd⟩
        · intro q hq
          cases addToGroup_mem groups g lid q hq with
          | inl h => exact hgrp q h
          | inr h =>
            cases h.2 with
            | inl h2 =>
              refine ⟨by rw [h2]; simp, by rw [h2]; exact List.nodup_singleton _, ?_⟩
              intro x hx
              rw [h2, List.mem_singleton] at hx
              rw [hx, h.1]
              exact hv
            | inr h2 =>
              obtain ⟨pre, hpre, he⟩ := h2
              obtain ⟨hpne, hpnd, hpok⟩ := hgrp (q.1, pre) hpre
              have hlidpre : lid ∉ pre := by
                intro hmem
                exact hsep (q.1, pre) hpre lid hmem (List.mem_cons_self _ _)
              refine ⟨by rw [he]; simp, ?_, ?_⟩
              · rw [he]
                have hperm := List.perm_append_singleton lid pre
                rw [hperm.nodup_iff]
                exact List.nodup_cons.mpr ⟨hlidpre, hpnd⟩
              · intro x hx
                rw [he, List.mem_append, List.mem_singleton] at hx
                cases hx with
                | inl hx2 => exact hpok x hx2
                | inr hx2 =>
                  rw [hx2, h.1]
                  exact hv

theorem GInv_pairwise (db : DB) (groups : List (Nat × List Nat))
    (h : GInv db groups) :
    List.Pairwise (fun p q => ∀ x ∈ p.2, x ∉ q.2) groups := by
  obtain ⟨hnd, hall⟩ := h
  have hpw : groups.Pairwise (fun p q => p.1 ≠ q.1) := List.pairwise_map.mp hnd
  refine List.Pairwise.imp_of_mem ?_ hpw
  intro p q hp hq hne x hxp hxq
  have h1 := (hall p hp).2.2 x hxp
  have h2 := (hall q hq).2.2 x hxq
  rw [h1] at h2
  injection h2 with h3
  exact hne h3

/-- State invariant carried through the stage-1 fold: well-formed ids,
positive line numbers, unique line ids, and for every still-unprocessed
group the facts its `processGroup` run will need. -/
def StInvCore (d : DB) (groups : List (Nat × List Nat)) : Prop :=
  wf d = true ∧
  (∀ l ∈ d.lines, l.line_number ≠ 0) ∧
  (d.lines.map (fun l => l.id)).Nodup ∧
  List.Pairwise (fun p q => ∀ x ∈ p.2, x ∉ q.2) groups ∧
  ∀ p ∈ groups,
    p.1 < d.nextId ∧ p.2 ≠ [] ∧ p.2.Nodup ∧
    (∀ l ∈ d.lines, l.id ∈ p.2 → l.grn = p.1) ∧
    (∀ lid ∈ p.2, ∃ l ∈ d.lines, l.id = lid) ∧
    (∀ lid ∈ p.2, hasInward d lid = false) ∧
    (∃ orig locId loc, d.grns.find? (fun x => x.id == p.1) = some orig ∧
      orig.delivery_location = some locId ∧
      d.locations.find? (fun x => x.id == locId) = some loc)

/-- What one successful `processGroup` run over the group `p` does to the
database, as seen from its pre-state `d`. -/
def StepRel (u : CustomUser) (d : DB) (p : Nat × List Nat) (d' : DB) : Prop :=
  (∃ orig locId loc,
    d.grns.find? (fun x => x.id == p.1) = some orig ∧
    orig.delivery_location = some locId ∧
    d.locations.find? (fun x => x.id == locId) = some loc ∧
    d'.grns = d.grns ++ [⟨d.nextId, orig.receiver, u.location, some u.id,
      some ("Transferred from " ++ loc.name)⟩]) ∧
  (∃ o : OTP, o.grn = some d.nextId ∧ o.valid = true ∧ d.nextId < o.id ∧
    d'.otps = d.otps ++ [o]) ∧
  (∃ news, d'.inwards = d.inwards ++ news ∧
    news.map (fun w => w.grn_line) = p.2.map some ∧
    (∀ w ∈ news, w.inwarded_by = u.id ∧ w.floor = none ∧ d.nextId ≤ w.id)) ∧
  d'.dns = d.dns ∧
  d'.locations = d.locations ∧
  (∀ l2 ∈ d'.lines, ∃ l ∈ d.lines, l2.id = l.id ∧
    (l2.grn = l.grn ∨ (l2.id ∈ p.2 ∧ l2.grn = d.nextId))) ∧
  (∀ lid ∈ p.2, ∃ l2 ∈ d'.lines, l2.id = lid ∧ l2.grn = d.nextId) ∧
  (∀ l ∈ d.lines, ∃ l2 ∈ d'.lines, l2.id = l.id) ∧
  (∀ g2, g2 ≠ p.1 → g2 ≠ d.nextId → linesOf d' g2 = linesOf d g2) ∧
  dense d' p.1 ∧ dense d' d.nextId ∧
  d.nextId < d'.nextId ∧
  d'.now = d.now ∧
  (d'.lines.map (fun l => l.id)).Perm (d.lines.map (fun l => l.id))

theorem lines_id_inj (d : DB) (hnd : (d.lines.map (fun l => l.id)).Nodup) :
    ∀ l1 ∈ d.lines, ∀ l2 ∈ d.lines, l1.id = l2.id → l1 = l2 := by
  intro l1 h1 l2 h2 he
  exact List.inj_on_of_nodup_map hnd h1 h2 he

/-- The grouping phase of a valid selection establishes the fold invariant. -/
theorem stinv_initial (db : DB) (selected : List Nat) (hwf : wf db = true)
    (hpos : ∀ l ∈ db.lines, l.line_number ≠ 0)
    (hnd : (db.lines.map (fun l => l.id)).Nodup)
    (hsel : selected.Nodup) :
    StInvCore db (buildGroups db selected [] []).1 := by
  have hg : GInv db (buildGroups db selected [] []).1 := by
    refine buildGroups_inv db selected [] [] hsel ?_ ⟨List.nodup_nil, ?_⟩
    · intro p hp
      cases hp
    · intro p hp
      cases hp
  obtain ⟨hknd, hgrp⟩ := hg
  refine ⟨hwf, hpos, hnd, GInv_pairwise db _ ⟨hknd, hgrp⟩, ?_⟩
  intro p hp
  obtain ⟨hpne, hpnd, hpok⟩ := hgrp p hp
  obtain ⟨x0, hx0⟩ := List.exists_mem_of_ne_nil p.2 hpne
  obtain ⟨l0, hl0, _, hl0g, _, _⟩ := validLine_ok db x0 p.1 (hpok x0 hx0)
  have hfacts := wf_facts db hwf
  refine ⟨?_, hpne, hpnd, ?_, ?_, ?_, ?_⟩
  · rw [← hl0g]
    exact (hfacts.2.1 l0 hl0).2
  · intro l hl hmem
    obtain ⟨l', hl', hid', hgrn', _, _⟩ := validLine_ok db l.id p.1 (hpok l.id hmem)
    rw [← hgrn']
    have : l = l' := lines_id_inj db hnd l hl l' hl' hid'.symm
    rw [this]
  · intro lid hmem
    obtain ⟨l', hl', hid', _⟩ := validLine_ok db lid p.1 (hpok lid hmem)
    exact ⟨l', hl', hid'⟩
  · intro lid hmem
    obtain ⟨l', hl', _, _, hinw, _⟩ := validLine_ok db lid p.1 (hpok lid hmem)
    exact hinw
  · obtain ⟨l', hl', _, _, _, orig, hfind, locId, loc, hdl, hlf, _⟩ :=
      validLine_ok db x0 p.1 (hpok x0 hx0)
    exact ⟨orig, locId, loc, hfind, hdl, hlf⟩

/-- One `processGroup` step under the fold invariant: the invariant survives
for the remaining groups and the step satisfies `StepRel`. -/
theorem step_cases (u : CustomUser) (rem : String) (emailOk : Nat → Bool)
    (rand : Nat → Nat) (st : DB × Nat × List String × List Nat)
    (p : Nat × List Nat) (rest : List (Nat × List Nat))
    (h : StInvCore st.1 (p :: rest)) :
    StInvCore (processGroup u rem emailOk rand st p).1 rest ∧
    StepRel u st.1 p (processGroup u rem emailOk rand st p).1 := by
  obtain ⟨hwf, hpos, hnd, hpw, hgr⟩ := h
  obtain ⟨hlt, hne, hnd2, hdir, hex, hinw, orig, locId, loc, hfind, hdl, hlocf⟩ :=
    hgr p (List.mem_cons_self _ _)
  have heq : (processGroup u rem emailOk rand st p).1 =
      (if emailOk st.1.nextId then
        { stage1GroupDb u rem rand st.1 p.1 p.2 orig loc with
          sentEmails := (stage1GroupDb u rem rand st.1 p.1 p.2 orig loc).sentEmails ++
            [⟨st.1.nextId, OTP.generate_otp (rand st.1.nextId)⟩] }
       else stage1GroupDb u rem rand st.1 p.1 p.2 orig loc) :=
    processGroup_eq u rem emailOk rand st.1 st.2.1 st.2.2.1 st.2.2.2 p.1 p.2
      orig locId loc hfind hdl hlocf
  obtain ⟨dG, hdG⟩ : ∃ dG, dG = stage1GroupDb u rem rand st.1 p.1 p.2 orig loc :=
    ⟨_, rfl⟩
  rw [← hdG] at heq
  obtain ⟨hGgrns, hGotps, ⟨news, hGinw, hnews1, hnews2⟩, hGdns, hGlocs, hcorr, hmoved,
    hids, hother, hdg, hdn, hGnext, hGnow, hGwf, hGpos, hGperm⟩ :=
    stage1GroupDb_spec u rem rand st.1 p.1 p.2 orig loc hwf hpos hdir hex hlt dG hdG
  obtain ⟨hpwhead, hpwtail⟩ := List.pairwise_cons.mp hpw
  have hcore : StInvCore dG rest := by
    refine ⟨hGwf, hGpos, (hGperm.nodup_iff).mpr hnd, hpwtail, ?_⟩
    intro q hq
    obtain ⟨hqlt, hqne, hqnd, hqdir, hqex, hqinw, orig2, locId2, loc2,
      hqfind, hqdl, hqlocf⟩ := hgr q (List.mem_cons_of_mem _ hq)
    have hdisj : ∀ x ∈ p.2, x ∉ q.2 := hpwhead q hq
    refine ⟨?_, hqne, hqnd, ?_, ?_, ?_, ?_⟩
    · rw [hGnext]
      omega
    · intro l2 hl2 hmem
      obtain ⟨l, hl, hid, hd2⟩ := hcorr l2 hl2
      cases hd2 with
      | inl h2 =>
        rw [h2]
        exact hqdir l hl (hid ▸ hmem)
      | inr h2 => exact absurd hmem (hdisj l2.id h2.1)
    · intro lid hmem
      obtain ⟨l, hl, hid⟩ := hqex lid hmem
      obtain ⟨l2, hl2, hid2⟩ := hids l hl
      exact ⟨l2, hl2, by rw [hid2, hid]⟩
    · intro lid hmem
      have hlidp : lid ∉ p.2 := fun hx => hdisj lid hx hmem
      simp only [hasInward, hGinw, List.any_append, Bool.or_eq_false_iff]
      constructor
      · simpa [hasInward] using hqinw lid hmem
      · simp only [List.any_eq_false]
        intro w hw
        have hwl : w.grn_line ∈ p.2.map some := by
          rw [← hnews1]
          exact List.mem_map_of_mem _ hw
        rw [List.mem_map] at hwl
        obtain ⟨x, hx, hxe⟩ := hwl
        rw [← hxe]
        have hxne : x ≠ lid := fun he => hlidp (he ▸ hx)
        simpa using hxne
    · refine ⟨orig2, locId2, loc2, ?_, hqdl, ?_⟩
      · rw [hGgrns]
        exact find?_append_left _ _ _ _ hqfind
      · rw [hGlocs]
        exact hqlocf
  have hrel : StepRel u st.1 p dG := by
    refine ⟨⟨orig, locId, loc, hfind, hdl, hlocf, hGgrns⟩,
      ⟨⟨st.1.nextId + 1 + p.2.length, OTP.generate_otp (rand st.1.nextId),
        some st.1.nextId, st.1.now, true⟩, rfl, rfl,
        by show st.1.nextId < st.1.nextId + 1 + p.2.length; omega, hGotps⟩,
      ⟨news, hGinw, hnews1, ?_⟩, hGdns, hGlocs, hcorr, hmoved, hids, hother,
      hdg, hdn, by rw [hGnext]; omega, hGnow, hGperm⟩
    intro w hw
    obtain ⟨a, b, c, d2⟩ := hnews2 w hw
    exact ⟨a, b, c⟩
  rw [heq]
  cases hem : emailOk st.1.nextId with
  | true =>
    simp only [hem, if_true]
    exact ⟨hcore, hrel⟩
  | false =>
    simp only [hem, Bool.false_eq_true, if_false]
    exact ⟨hcore, hrel⟩

theorem fold_dense (u : CustomUser) (rem : String) (emailOk : Nat → Bool)
    (rand : Nat → Nat) : ∀ (groups : List (Nat × List Nat))
    (st : DB × Nat × List String × List Nat),
    StInvCore st.1 groups → (∀ g, dense st.1 g) →
    ∀ g, dense (groups.foldl (processGroup u rem emailOk rand) st).1 g := by
  intro groups
  induction groups with
  | nil =>
    intro st _ hd g
    exact hd g
  | cons p rest ih =>
    intro st hinv hd g
    rw [List.foldl_cons]
    obtain ⟨hcore, hrel⟩ := step_cases u rem emailOk rand st p rest hinv
    refine ih (processGroup u rem emailOk rand st p) hcore ?_ g
    intro g2
    obtain ⟨_, _, _, _, _, _, _, _, hother, hdg, hdn, _, _, _⟩ := hrel
    by_cases h1 : g2 = p.1
    · rw [h1]
      exact hdg
    · by_cases h2 : g2 = st.1.nextId
      · rw [h2]
        exact hdn
      · exact dense_of_linesOf_eq _ _ g2 (hother g2 h1 h2) (hd g2)

/-- The per-original-GRN outcome of stage 1, as visible in a later database
state: the new GRN's row is present, it has exactly one (fresh, valid) OTP,
and every moved line sits in it with exactly one fresh floor-less
WarehouseInward stamped by the acting user. -/
def DoneG (u : CustomUser) (gid : Nat) (row : GRN) (lids : List Nat)
    (d : DB) : Prop :=
  row ∈ d.grns ∧
  (d.otps.filter (fun o => o.grn == some gid)).length = 1 ∧
  (∀ o ∈ d.otps, o.grn = some gid → o.valid = true ∧ gid < o.id) ∧
  ∀ lid ∈ lids,
    (∃ l2 ∈ d.lines, l2.id = lid ∧ l2.grn = gid) ∧
    (d.inwards.filter (fun w => w.grn_line == some lid)).length = 1 ∧
    (∀ w ∈ d.inwards, w.grn_line = some lid → w.inwarded_by = u.id ∧
      w.floor = none ∧ gid ≤ w.id)

theorem filter_nil_of_all_false {α : Type} (l : List α) (p : α → Bool)
    (h : ∀ a ∈ l, p a = false) : l.filter p = [] := by
  induction l with
  | nil => rfl
  | cons x xs ih =>
    rw [List.filter_cons, h x (List.mem_cons_self _ _)]
    simp only [Bool.false_eq_true, if_false]
    exact ih (fun a ha => h a (List.mem_cons_of_mem _ ha))

theorem done_preserved (u : CustomUser) (gid : Nat) (row : GRN) (lids : List Nat)
    (d : DB) (q : Nat × List Nat) (d' : DB)
    (hnd : (d.lines.map (fun l => l.id)).Nodup)
    (hgid : gid < d.nextId)
    (hdisj : ∀ x ∈ lids, x ∉ q.2)
    (hrel : StepRel u d q d')
    (hdone : DoneG u gid row lids d) : DoneG u gid row lids d' := by
  obtain ⟨⟨orig, locId, loc, _, _, _, hgrns⟩, ⟨o, hogrn, _, hoid, hotps⟩,
    ⟨news, hinws, hnews1, hnews2⟩, _, _, hcorr, _, hids, _, _, _, _, _, _⟩ := hrel
  obtain ⟨hrow, hcnt, hoprops, hlids⟩ := hdone
  refine ⟨?_, ?_, ?_, ?_⟩
  · rw [hgrns]
    exact List.mem_append_left _ hrow
  · rw [hotps, List.filter_append]
    have hof : (o.grn == some gid) = false := by
      rw [hogrn]
      have hne2 : d.nextId ≠ gid := by omega
      simpa using hne2
    have h1 : List.filter (fun o2 => o2.grn == some gid) [o] = [] := by
      simp [List.filter_cons, hof]
    rw [h1, List.append_nil]
    exact hcnt
  · intro o2 ho2 hgr2
    rw [hotps] at ho2
    rcases List.mem_append.mp ho2 with h | h
    · exact hoprops o2 h hgr2
    · rw [List.mem_singleton] at h
      rw [h] at hgr2
      rw [hogrn] at hgr2
      injection hgr2 with h3
      omega
  · intro lid hlid
    obtain ⟨⟨l2, hl2, hl2id, hl2grn⟩, hicnt, hiprops⟩ := hlids lid hlid
    have hlidq : lid ∉ q.2 := hdisj lid hlid
    refine ⟨?_, ?_, ?_⟩
    · obtain ⟨l3, hl3, hid3⟩ := hids l2 hl2
      obtain ⟨l4, hl4, hid4, hd4⟩ := hcorr l3 hl3
      have hl4id : l4.id = l2.id := by rw [← hid4, hid3]
      have hl42 : l4 = l2 := lines_id_inj d hnd l4 hl4 l2 hl2 hl4id
      cases hd4 with
      | inl hg4 =>
        refine ⟨l3, hl3, by rw [hid3, hl2id], ?_⟩
        rw [hg4, hl42, hl2grn]
      | inr hg4 =>
        exfalso
        have : lid ∈ q.2 := by
          rw [← hl2id, ← hid3]
          exact hg4.1
        exact hlidq this
    · rw [hinws, List.filter_append]
      have hni : news.filter (fun w => w.grn_line == some lid) = [] := by
        apply filter_nil_of_all_false
        intro w hw
        have hwl : w.grn_line ∈ q.2.map some := by
          rw [← hnews1]
          exact List.mem_map_of_mem _ hw
        rw [List.mem_map] at hwl
        obtain ⟨x, hx, hxe⟩ := hwl
        rw [← hxe]
        have hxne : x ≠ lid := fun he => hlidq (he ▸ hx)
        simpa using hxne
      rw [hni, List.append_nil]
      exact hicnt
    · intro w hw hwl
      rw [hinws] at hw
      rcases List.mem_append.mp hw with h | h
      · exact hiprops w h hwl
      · have hwl2 : w.grn_line ∈ q.2.map some := by
          rw [← hnews1]
          exact List.mem_map_of_mem _ h
        rw [hwl, List.mem_map] at hwl2
        obtain ⟨x, hx, hxe⟩ := hwl2
        injection hxe with h3
        rw [h3] at hx
        exact absurd hx hlidq

theorem done_fold (u : CustomUser) (rem : String) (emailOk : Nat → Bool)
    (rand : Nat → Nat) (gid : Nat) (row : GRN) (lids : List Nat) :
    ∀ (groups : List (Nat × List Nat)) (st : DB × Nat × List String × List Nat),
    StInvCore st.1 groups →
    gid < st.1.nextId →
    (∀ q ∈ groups, ∀ x ∈ lids, x ∉ q.2) →
    DoneG u gid row lids st.1 →
    DoneG u gid row lids
      ((groups.foldl (processGroup u rem emailOk rand) st)).1 := by
  intro groups
  induction groups with
  | nil =>
    intro st _ _ _ hd
    exact hd
  | cons q rest ih =>
    intro st hinv hgid hdisj hd
    rw [List.foldl_cons]
    obtain ⟨hcore, hrel⟩ := step_cases u rem emailOk rand st q rest hinv
    have hnd : (st.1.lines.map (fun l => l.id)).Nodup := hinv.2.2.1
    have hnextlt : st.1.nextId < (processGroup u rem emailOk rand st q).1.nextId := by
      obtain ⟨_, _, _, _, _, _, _, _, _, _, _, h12, _, _⟩ := hrel
      exact h12
    refine ih (processGroup u rem emailOk rand st q) hcore (by omega) ?_ ?_
    · intro q2 hq2
      exact hdisj q2 (List.mem_cons_of_mem _ hq2)
    · exact done_preserved u gid row lids st.1 q _ hnd hgid
        (hdisj q (List.mem_cons_self _ _)) hrel hd

theorem fold_done (u : CustomUser) (rem : String) (emailOk : Nat → Bool)
    (rand : Nat → Nat) : ∀ (groups : List (Nat × List Nat))
    (st : DB × Nat × List String × List Nat),
    StInvCore st.1 groups →
    ∀ p ∈ groups, ∃ gid orig locId loc,
      st.1.nextId ≤ gid ∧
      st.1.grns.find? (fun x => x.id == p.1) = some orig ∧
      orig.delivery_location = some locId ∧
      st.1.locations.find? (fun x => x.id == locId) = some loc ∧
      DoneG u gid ⟨gid, orig.receiver, u.location, some u.id,
        some ("Transferred from " ++ loc.name)⟩ p.2
        ((groups.foldl (processGroup u rem emailOk rand) st)).1 := by
  intro groups
  induction groups with
  | nil =>
    intro st _ p hp
    cases hp
  | cons q rest ih =>
    intro st hinv p hp
    rw [List.foldl_cons]
    obtain ⟨hcore, hrel⟩ := step_cases u rem emailOk rand st q rest hinv
    obtain ⟨hwf, hpos, hnd, hpw, hgr⟩ := hinv
    cases hp with
    | head =>
      obtain ⟨⟨orig, locId, loc, hfind, hdl, hlocf, hgrns⟩,
        ⟨o, hogrn, hovalid, hoid, hotps⟩, ⟨news, hinws, hnews1, hnews2⟩,
        _, _, _, hmoved, _, _, _, _, hnextlt, _, _⟩ := hrel
      obtain ⟨hlt, hne2, hnd2, hdir, hex, hinw, _⟩ :=
        hgr q (List.mem_cons_self _ _)
      refine ⟨st.1.nextId, orig, locId, loc, le_refl _, hfind, hdl, hlocf, ?_⟩
      have hwfacts := wf_facts st.1 hwf
      have hdone1 : DoneG u st.1.nextId ⟨st.1.nextId, orig.receiver, u.location,
          some u.id, some ("Transferred from " ++ loc.name)⟩ q.2
          (processGroup u rem emailOk rand st q).1 := by
        refine ⟨?_, ?_, ?_, ?_⟩
        · rw [hgrns]
          exact List.mem_append_right _ (List.mem_singleton.mpr rfl)
        · rw [hotps, List.filter_append]
          have h0 : st.1.otps.filter (fun o2 => o2.grn == some st.1.nextId) = [] := by
            apply filter_nil_of_all_false
            intro o2 ho2
            cases hg2 : o2.grn with
            | none => rfl
            | some g2 =>
              have := (hwfacts.2.2.1 o2 ho2).2 g2 hg2
              have hne3 : g2 ≠ st.1.nextId := by omega
              simpa using hne3
          have h1 : [o].filter (fun o2 => o2.grn == some st.1.nextId) = [o] := by
            simp [List.filter_cons, hogrn]
          rw [h0, h1]
          rfl
        · intro o2 ho2 hgr2
          rw [hotps] at ho2
          rcases List.mem_append.mp ho2 with hm | hm
          · have := (hwfacts.2.2.1 o2 hm).2 st.1.nextId hgr2
            omega
          · rw [List.mem_singleton] at hm
            rw [hm]
            exact ⟨hovalid, hoid⟩
        · intro lid hlid
          refine ⟨hmoved lid hlid, ?_, ?_⟩
          · rw [hinws, List.filter_append]
            have h0 : st.1.inwards.filter (fun w => w.grn_line == some lid) = [] := by
              apply filter_nil_of_all_false
              have hall := List.any_eq_false.mp (hinw lid hlid)
              intro w hw
              have := hall w hw
              simpa using this
            rw [h0]
            simp only [List.nil_append]
            rw [news_filter_count lid q.2 news hnews1]
            exact filter_beq_length_one q.2 hnd2 lid hlid
          · intro w hw hwl
            rw [hinws] at hw
            rcases List.mem_append.mp hw with hm | hm
            · exfalso
              have hall := List.any_eq_false.mp (hinw lid hlid)
              have := hall w hm
              rw [hwl] at this
              simp at this
            · obtain ⟨a, b, c⟩ := hnews2 w hm
              exact ⟨a, b, c⟩
      refine done_fold u rem emailOk rand st.1.nextId _ q.2 rest _ hcore
        (by omega) ?_ hdone1
      intro q2 hq2 x hx
      exact (List.pairwise_cons.mp hpw).1 q2 hq2 x hx
    | tail _ hp2 =>
      obtain ⟨gid, orig, locId, loc, hgle, hfind2, hdl2, hlocf2, hdone⟩ :=
        ih (processGroup u rem emailOk rand st q) hcore p hp2
      obtain ⟨hlt, hne2, hnd2, hdir, hex, hinw, orig0, locId0, loc0,
        hfind0, hdl0, hlocf0⟩ := hgr p (List.mem_cons_of_mem _ hp2)
      obtain ⟨⟨origq, locIdq, locq, _, _, _, hgrns⟩, _, _, _, hlocs, _, _, _, _,
        _, _, hnextlt, _, _⟩ := hrel
      have hfind1 : (processGroup u rem emailOk rand st q).1.grns.find?
          (fun x => x.id == p.1) = some orig0 := by
        rw [hgrns]
        exact find?_append_left _ _ _ _ hfind0
      rw [hfind1] at hfind2
      injection hfind2 with horig
      refine ⟨gid, orig0, locId, loc, by omega, hfind0,
        by rw [horig]; exact hdl2, by rw [← hlocs]; exact hlocf2,
        by rw [horig]; exact hdone⟩

theorem grn_create_lines (db : DB) (u : CustomUser) (receiver : Nat)
    (loc : Location) (place : Option String) (inputs : List LineInput)
    (emailOk : Bool) (r : Nat) :
    (grn_create db u receiver loc place inputs emailOk r).2.lines = db.lines ∨
    (grn_create db u receiver loc place inputs emailOk r).2.lines =
      db.lines ++ mkLines db.nextId (db.nextId + 1) 1
        ((inputs.filter (fun li => !li.delete)).filter lineHasData) := by
  simp only [grn_create]
  cases hv : ((inputs.filter (fun li => !li.delete)).filter lineHasData).isEmpty with
  | true => simp [hv]
  | false =>
    simp only [hv, Bool.false_eq_true, if_false]
    cases hw : loc.is_warehouse with
    | true =>
      simp [hw]
    | false =>
      simp only [hw, Bool.not_false, if_true]
      cases emailOk with
      | true => simp
      | false => simp

theorem create_dense_helper (db : DB) (gid idn : Nat) (valids : List LineInput)
    (d' : DB)
    (hfresh : ∀ l ∈ db.lines, l.grn ≠ gid)
    (hdense : ∀ g, dense db g)
    (hl : d'.lines = db.lines ++ mkLines gid idn 1 valids) :
    ∀ g, dense d' g := by
  intro g
  unfold dense linesOf
  rw [hl, List.filter_append]
  by_cases hg : g = gid
  · subst hg
    have h1 : db.lines.filter (fun l => l.grn == g) = [] := by
      apply filter_nil_of_all_false
      intro l hlm
      simpa using hfresh l hlm
    have h2 : (mkLines g idn 1 valids).filter (fun l => l.grn == g) =
        mkLines g idn 1 valids := by
      apply List.filter_eq_self.mpr
      intro l hlm
      simpa using mkLines_grn g idn 1 valids l hlm
    rw [h1, h2, List.nil_append, mkLines_numbers, mkLines_length]
  · have h2 : (mkLines gid idn 1 valids).filter (fun l => l.grn == g) = [] := by
      apply filter_nil_of_all_false
      intro l hlm
      have he := mkLines_grn gid idn 1 valids l hlm
      rw [he]
      simpa using fun h3 => hg h3.symm
    rw [h2, List.append_nil]
    exact hdense g

theorem grn_delete_lines (db : DB) (u : CustomUser) (sess : Option Nat)
    (gid : Nat) :
    (grn_delete db u sess gid).2.lines = db.lines ∨
    (grn_delete db u sess gid).2.lines =
      db.lines.filter (fun l => l.grn != gid) := by
  simp only [grn_delete]
  cases ha : (u.is_staff || u.is_superuser) with
  | false => simp [ha]
  | true =>
  simp only [ha, Bool.not_true, Bool.false_eq_true, if_false]
  cases hf : db.grns.find? (fun g => g.id == gid) with
  | none => simp [hf]
  | some g =>
    simp only [hf]
    cases hp : has_location_permission db u g.delivery_location sess with
    | false => simp [hp]
    | true =>
      simp only [hp, Bool.not_true, Bool.false_eq_true, if_false]
      cases hd : (linesOf db gid).any (fun l => hasDN db l.id) with
      | true => simp [hd]
      | false => simp [hd]

theorem delete_dense (db : DB) (gid : Nat) (d' : DB)
    (hdense : ∀ g, dense db g)
    (hl : d'.lines = db.lines.filter (fun l => l.grn != gid)) :
    ∀ g, dense d' g := by
  intro g
  unfold dense linesOf
  rw [hl]
  by_cases hg : g = gid
  · subst hg
    have h1 : (db.lines.filter (fun l => l.grn != g)).filter
        (fun l => l.grn == g) = [] := by
      apply filter_nil_of_all_false
      intro l hlm
      rw [List.mem_filter] at hlm
      simpa [bne] using hlm.2
    rw [h1]
    exact List.Perm.refl _
  · have h1 : (db.lines.filter (fun l => l.grn != gid)).filter
        (fun l => l.grn == g) = db.lines.filter (fun l => l.grn == g) := by
      rw [List.filter_filter]
      apply List.filter_congr
      intro x _
      cases hb : (x.grn == g) with
      | false => simp [hb]
      | true =>
        have hxg : x.grn = g := by simpa using hb
        have h2 : (x.grn != gid) = true := by
          rw [hxg]
          simpa [bne] using hg
        simp [hb, h2]
    rw [h1]
    exact hdense g

/-- C2: for every GRN, after a completed GRN creation, GRN deletion, or
stage-1 warehouse transfer, the `line_number`s of each GRN's lines form a
dense 1..N sequence (N = its current line count); in particular stage 1
renumbers both the source GRN's remaining lines and the new GRN's lines. -/
theorem snd_if (c : Prop) [Decidable c] (a b : BatchResult) (d : DB) :
    (if c then (a, d) else (b, d)).2 = d := by
  split <;> rfl

theorem c2_dense_line_numbers (db : DB) (hwf : wf db = true)
    (hpos : ∀ l ∈ db.lines, l.line_number ≠ 0)
    (hnd : (db.lines.map (fun l => l.id)).Nodup)
    (hdense : ∀ g, dense db g) :
    (∀ (u : CustomUser) (receiver : Nat) (loc : Location) (place : Option String)
      (inputs : List LineInput) (emailOk : Bool) (r : Nat) (g : Nat),
      dense (grn_create db u receiver loc place inputs emailOk r).2 g) ∧
    (∀ (u : CustomUser) (sess : Option Nat) (gid : Nat) (g : Nat),
      dense (grn_delete db u sess gid).2 g) ∧
    (∀ (u : CustomUser) (selected : List Nat) (rem : String)
      (emailOk : Nat → Bool) (rand : Nat → Nat), selected.Nodup → ∀ g : Nat,
      dense (warehouse_inward_process db u selected rem emailOk rand).2 g) := by
  refine ⟨?_, ?_, ?_⟩
  · intro u receiver loc place inputs emailOk r g
    have hfresh : ∀ l ∈ db.lines, l.grn ≠ db.nextId := by
      intro l hl
      have := (wf_facts db hwf).2.1 l hl
      omega
    cases grn_create_lines db u receiver loc place inputs emailOk r with
    | inl h =>
      refine dense_of_linesOf_eq _ db g ?_ (hdense g)
      unfold linesOf
      rw [h]
    | inr h =>
      exact create_dense_helper db db.nextId (db.nextId + 1) _ _ hfresh hdense h g
  · intro u sess gid g
    cases grn_delete_lines db u sess gid with
    | inl h =>
      refine dense_of_linesOf_eq _ db g ?_ (hdense g)
      unfold linesOf
      rw [h]
    | inr h => exact delete_dense db gid _ hdense h g
  · intro u selected rem emailOk rand hsel g
    simp only [warehouse_inward_process]
    cases hse : selected.isEmpty with
    | true =>
      simp only [hse, if_true]
      exact hdense g
    | false =>
      simp only [hse, Bool.false_eq_true, if_false]
      cases hu : u.location with
      | none => exact hdense g
      | some uloc =>
        simp only [hu]
        have hinv := stinv_initial db selected hwf hpos hnd hsel
        have hd := fold_dense u rem emailOk rand (buildGroups db selected [] []).1
          (db, 0, (buildGroups db selected [] []).2, []) hinv hdense g
        rw [snd_if]
        exact hd

theorem c2_witness :
    dense (grn_create exDb0 exAdmin 7 exWh none [exLine1, exLine2] true 123456).2 100 ∧
    dense (grn_delete exDb0 exAdmin none 50).2 50 ∧
    dense (warehouse_inward_process exDb0 exAdmin [5] "" (fun _ => true)
      (fun _ => 123456)).2 100 := by
  have hdense0 : ∀ g, dense exDb0 g := by
    intro g
    unfold dense linesOf
    exact List.Perm.refl _
  have h := c2_dense_line_numbers exDb0 (by decide) (by decide) (by decide) hdense0
  exact ⟨h.1 exAdmin 7 exWh none [exLine1, exLine2] true 123456 100,
    h.2.1 exAdmin none 50 50,
    h.2.2 exAdmin [5] "" (fun _ => true) (fun _ => 123456) (by decide) 100⟩

/-- C3: for every stage-1 invocation by a user with a location and for each
original GRN contributing at least one valid selected line, a brand-new GRN
is created with the original's receiver, the acting user's location and
created_by; every valid selected line is reassigned to it with exactly one
fresh floor-less WarehouseInward by the acting user; and the new GRN has
exactly one fresh OTP. -/
theorem c3_stage1_per_group (db : DB) (u : CustomUser) (selected : List Nat)
    (rem : String) (emailOk : Nat → Bool) (rand : Nat → Nat) (uloc : Nat)
    (hwf : wf db = true)
    (hpos : ∀ l ∈ db.lines, l.line_number ≠ 0)
    (hnd : (db.lines.map (fun l => l.id)).Nodup)
    (hsel : selected.Nodup)
    (hul : u.location = some uloc) :
    ∀ p ∈ (buildGroups db selected [] []).1,
      ∃ gid orig locId loc,
        db.nextId ≤ gid ∧
        (∀ g2 ∈ db.grns, g2.id ≠ gid) ∧
        db.grns.find? (fun x => x.id == p.1) = some orig ∧
        orig.delivery_location = some locId ∧
        db.locations.find? (fun x => x.id == locId) = some loc ∧
        DoneG u gid ⟨gid, orig.receiver, u.location, some u.id,
          some ("Transferred from " ++ loc.name)⟩ p.2
          (warehouse_inward_process db u selected rem emailOk rand).2 := by
  intro p hp
  have hinv := stinv_initial db selected hwf hpos hnd hsel
  cases hse : selected.isEmpty with
  | true =>
    have hnil : selected = [] := by
      cases selected with
      | nil => rfl
      | cons a as => simp [List.isEmpty] at hse
    rw [hnil] at hp
    simp [buildGroups] at hp
  | false =>
    obtain ⟨gid, orig, locId, loc, hgle, hfind, hdl, hlocf, hdone⟩ :=
      fold_done u rem emailOk rand (buildGroups db selected [] []).1
        (db, 0, (buildGroups db selected [] []).2, []) hinv p hp
    refine ⟨gid, orig, locId, loc, hgle, ?_, hfind, hdl, hlocf, ?_⟩
    · intro g2 hg2
      have hgle2 : db.nextId ≤ gid := hgle
      have := (wf_facts db hwf).1 g2 hg2
      omega
    · rw [hul] at hdone
      simp only [warehouse_inward_process, hse, Bool.false_eq_true, if_false, hul]
      rw [snd_if]
      exact hdone

theorem c3_witness :
    ∃ gid orig locId loc,
      exDbW.nextId ≤ gid ∧
      (∀ g2 ∈ exDbW.grns, g2.id ≠ gid) ∧
      exDbW.grns.find? (fun x => x.id == (100, [101, 102]).1) = some orig ∧
      orig.delivery_location = some locId ∧
      exDbW.locations.find? (fun x => x.id == locId) = some loc ∧
      DoneG exAdmin gid ⟨gid, orig.receiver, exAdmin.location, some exAdmin.id,
        some ("Transferred from " ++ loc.name)⟩ (100, [101, 102]).2
        (warehouse_inward_process exDbW exAdmin [101, 102] "" (fun _ => true)
          (fun _ => 123456)).2 :=
  c3_stage1_per_group exDbW exAdmin [101, 102] "" (fun _ => true) (fun _ => 123456)
    2 (by decide) (by decide) (by decide) (by decide) rfl (100, [101, 102])
    (by decide)
